import Mathlib

/-!
Verification of the iterative expected-flux / continuum estimation engine of
picca (`py/picca/delta_extraction/expected_fluxes/dr16_expected_flux.py`,
class `Dr16ExpectedFlux`) against its natural-language specification.

The numerical arrays of the source are embedded as lists over an IEEE-like
value type `FP` (rationals extended with signed infinities and NaN), because
several spec sentences are about division-by-zero and NaN behaviour of the
numpy arithmetic.  Wavelength grids and raw input data are plain rationals;
per-pixel quantities computed by the engine live in `FP`.

The external nonlinear minimizer (iminuit) is abstracted as an oracle giving,
per invocation, the reported validity flag and the fitted parameter values;
every theorem below quantifies over this oracle, so nothing depends on what
the minimizer actually returns.
-/

/-- IEEE-754-like extended values: finite rationals, the two infinities and
NaN.  Overflow does not occur (rationals are unbounded) and the sign of zero
is not tracked; both are irrelevant to the code paths verified here, where
nonfinite values only ever arise from division by an exact zero of a
nonnegative quantity. -/
inductive FP where
  | fin : ℚ → FP
  | inf : FP
  | ninf : FP
  | nan : FP
deriving DecidableEq, Repr

namespace FP

/-- IEEE addition: NaN propagates, `inf + ninf = nan`. -/
def add : FP → FP → FP
  | nan, _ => nan
  | _, nan => nan
  | fin a, fin b => fin (a + b)
  | fin _, inf => inf
  | inf, fin _ => inf
  | inf, inf => inf
  | fin _, ninf => ninf
  | ninf, fin _ => ninf
  | ninf, ninf => ninf
  | inf, ninf => nan
  | ninf, inf => nan

/-- IEEE multiplication: NaN propagates, `0 * inf = nan`, signs tracked. -/
def mul : FP → FP → FP
  | nan, _ => nan
  | _, nan => nan
  | fin a, fin b => fin (a * b)
  | fin a, inf => if 0 < a then inf else if a < 0 then ninf else nan
  | inf, fin a => if 0 < a then inf else if a < 0 then ninf else nan
  | fin a, ninf => if 0 < a then ninf else if a < 0 then inf else nan
  | ninf, fin a => if 0 < a then ninf else if a < 0 then inf else nan
  | inf, inf => inf
  | inf, ninf => ninf
  | ninf, inf => ninf
  | ninf, ninf => inf

/-- IEEE division with an unsigned zero (zero counts as `+0`):
`q / 0 = inf` for `q > 0`, `0 / 0 = nan`, `q / inf = 0`, `inf / inf = nan`. -/
def div : FP → FP → FP
  | nan, _ => nan
  | _, nan => nan
  | fin a, fin b =>
      if b = 0 then (if a = 0 then nan else if 0 < a then inf else ninf)
      else fin (a / b)
  | fin _, inf => fin 0
  | fin _, ninf => fin 0
  | inf, fin b => if b < 0 then ninf else inf
  | ninf, fin b => if b < 0 then inf else ninf
  | inf, inf => nan
  | inf, ninf => nan
  | ninf, inf => nan
  | ninf, ninf => nan

/-- IEEE strict comparison: every comparison involving NaN is false. -/
def lt : FP → FP → Bool
  | fin a, fin b => decide (a < b)
  | fin _, inf => true
  | ninf, fin _ => true
  | ninf, inf => true
  | _, _ => false

/-- IEEE non-strict comparison: every comparison involving NaN is false. -/
def le : FP → FP → Bool
  | nan, _ => false
  | _, nan => false
  | fin a, fin b => decide (a ≤ b)
  | fin _, inf => true
  | fin _, ninf => false
  | inf, fin _ => false
  | inf, inf => true
  | inf, ninf => false
  | ninf, _ => true

/-- Whether the value is NaN. -/
def isNaN : FP → Bool
  | nan => true
  | _ => false

/-- Whether the value is a finite number. -/
def isFin : FP → Bool
  | fin _ => true
  | _ => false

/-- Left-fold sum of a list of values, starting from `0`, exactly as a numpy
`sum` accumulates. -/
def sum (l : List FP) : FP := l.foldl add (fin 0)

end FP

/-- Interpolation kind of a `scipy.interpolate.interp1d` object: the default
(piecewise-linear) kind or the `kind='nearest'` variant. -/
inductive IKind where
  | linear : IKind
  | nearest : IKind
deriving DecidableEq, Repr

/-- Out-of-range behaviour of a `scipy.interpolate.interp1d` object:
`fill_value='extrapolate'`, or `fill_value=0.0, bounds_error=False`. -/
inductive IFill where
  | extrap : IFill
  | zero : IFill
deriving DecidableEq, Repr

/-- A built `scipy.interpolate.interp1d` object: sample abscissae (strictly
increasing in every use below), sample values, kind and fill mode.  Modelled
from the documented behaviour of scipy (the library is external to the
repository): `nearest` picks the sample with nearest abscissa, rounding down
at midpoints, and extrapolates to the boundary samples; `linear` interpolates
on the bracketing segment and extrapolates linearly from the outermost
segment; fill mode `zero` returns `0` strictly outside the sampled range. -/
structure Interp where
  kind : IKind
  fill : IFill
  xs : List ℚ
  ys : List FP
deriving DecidableEq, Repr

/-- Absolute value on the rationals, written out so that concrete
evaluations reduce in the kernel. -/
def qabs (q : ℚ) : ℚ := if q < 0 then -q else q

/-- The sample pair whose abscissa is nearest to `x`; on ties the earlier
(lower-abscissa) pair wins.  Returns `none` on the empty list. -/
def nearestPick (x : ℚ) : List (ℚ × FP) → Option (ℚ × FP)
  | [] => none
  | p :: ps =>
      match nearestPick x ps with
      | none => some p
      | some q => if qabs (x - q.1) < qabs (x - p.1) then some q else some p

/-- Piecewise-linear evaluation over sample pairs with sorted abscissae,
extrapolating linearly from the first/last segment. -/
def linearEval : List (ℚ × FP) → ℚ → FP
  | [], _ => FP.nan
  | [(_, y)], _ => y
  | (x0, y0) :: (x1, y1) :: rest, x =>
      if x ≤ x1 ∨ rest = [] then
        FP.add y0 (FP.mul (FP.add y1 (FP.mul (FP.fin (-1)) y0))
          (FP.fin ((x - x0) / (x1 - x0))))
      else linearEval ((x1, y1) :: rest) x

/-- Evaluate an interpolant at one abscissa. -/
def Interp.eval (f : Interp) (x : ℚ) : FP :=
  let core :=
    match f.kind with
    | IKind.nearest =>
        match nearestPick x (f.xs.zip f.ys) with
        | none => FP.nan
        | some p => p.2
    | IKind.linear => linearEval (f.xs.zip f.ys) x
  match f.fill with
  | IFill.extrap => core
  | IFill.zero =>
      if x < f.xs.headD 0 ∨ f.xs.getLastD 0 < x then FP.fin 0 else core

/-- Index (into `grid`) of the grid point nearest to `x`; ties pick the lower
index.  Helper for `find_bins`. -/
def nearestIdx (grid : List ℚ) (x : ℚ) : ℕ :=
  match grid.enum.foldl
      (fun best (p : ℕ × ℚ) =>
        match best with
        | none => some p
        | some b => if qabs (x - p.2) < qabs (x - b.2) then some p else some b)
      (none : Option (ℕ × ℚ)) with
  | none => 0
  | some b => b.1

/-- Modelled from the spec: `picca.delta_extraction.utils.find_bins` is not
part of the provided sources; per the spec, pixels are assigned "to rest-frame
bins by nearest/floor binning" against a fixed grid.  We model nearest-point
binning against the grid. -/
def find_bins (values : List ℚ) (grid : List ℚ) : List ℕ :=
  values.map (nearestIdx grid)

/-- `np.bincount(bins, weights=w)`: a list of length `max bins + 1` (empty for
empty input) whose `j`-th entry is the sum, in occurrence order, of the
weights whose bin is `j`. -/
def bincount (bins : List ℕ) (weights : List FP) : List FP :=
  match bins with
  | [] => []
  | _ =>
      (List.range (bins.foldl max 0 + 1)).map fun j =>
        FP.sum ((bins.zip weights).filterMap
          fun p => if p.1 = j then some p.2 else none)

/-- `acc[:len(rebin)] += rebin` on numpy arrays with `len rebin ≤ len acc`. -/
def addInto (acc rebin : List FP) : List FP :=
  acc.enum.map fun p =>
    match rebin.get? p.1 with
    | some r => FP.add p.2 r
    | none => p.2

/-- Boolean-mask selection `v[m]` on a numpy array. -/
def maskFP (v : List FP) (m : List Bool) : List FP :=
  (v.zip m).filterMap fun p => if p.2 then some p.1 else none

/-- Boolean-mask selection `v[m]` on a numpy array of grid points. -/
def maskQ (v : List ℚ) (m : List Bool) : List ℚ :=
  (v.zip m).filterMap fun p => if p.2 then some p.1 else none

/-- Python dict assignment `d[k] = v` on an association list: overwrite the
existing entry if the key is present, append otherwise. -/
def insertA {α : Type} (l : List (ℕ × α)) (k : ℕ) (v : α) : List (ℕ × α) :=
  if l.any (fun p => p.1 == k) then
    l.map fun p => if p.1 == k then (k, v) else p
  else l ++ [(k, v)]

/-- One spectral line of sight.  Modelled from the spec (the `Forest` class of
the repository is not among the provided sources): identity, per-pixel arrays
on the common wavelength sampling, the optional exposure-difference capability
(`isPk1d`, standing for `isinstance(forest, Pk1dForest)`), and the mutable
state written during processing.  The redshift only ever enters the engine
through `np.log10(1 + forest.z)`, so that shift is stored directly as the
rational field `logZ`. -/
structure Forest where
  los_id : ℕ
  logZ : ℚ
  log_lambda : List ℚ
  flux : List ℚ
  ivar : List ℚ
  transmission_correction : List ℚ
  isPk1d : Bool
  continuum : Option (List FP)
  bad_continuum_reason : Option String
  delta : List FP
  weights : List FP
deriving DecidableEq, Repr

/-- Value of the `los_ids` output mapping for one line of sight
(`populate_los_ids`): mean expected flux, weights, continuum, and the
adjusted inverse variance exposed only for `Pk1dForest` objects. -/
structure LosInfo where
  mean_expected_flux : List FP
  weights : List FP
  continuum : List FP
  ivar : Option (List FP)
deriving DecidableEq, Repr

/-- Contents of one saved iteration file (`save_iteration_step` together with
`hdu_stack_deltas`, `hdu_var_func` and `hdu_cont`): the label (`-1` for the
final iteration) and the three logical tables, each interpolant evaluated on
its grid exactly as the HDU writers do. -/
structure SavedStep where
  label : Int
  stack_loglam : List ℚ
  stack : List FP
  stack_weight : List FP
  varfunc_loglam : List ℚ
  eta : List FP
  var_lss : List FP
  fudge : List FP
  num_pixels : List FP
  valid_fit : List FP
  cont_loglam : List ℚ
  mean_cont : List FP
  mean_cont_weight : List FP
deriving DecidableEq, Repr

/-- The mutable state of a `Dr16ExpectedFlux` instance, together with the
`Forest` class-level wavelength grids it reads.  `get_stack_delta` and
`get_stack_delta_weights` start as Python `None` and are `Option`s here. -/
structure Dr16State where
  use_constant_weight : Bool
  use_ivar_as_weight : Bool
  order : ℕ
  num_iterations : ℕ
  num_bins_variance : ℕ
  log_lambda_grid : List ℚ
  log_lambda_rest_frame_grid : List ℚ
  log_lambda_var_func_grid : List ℚ
  fit_variance_functions : List String
  get_eta : Interp
  get_var_lss : Interp
  get_fudge : Interp
  get_num_pixels : Interp
  get_valid_fit : Interp
  get_mean_cont : Interp
  get_mean_cont_weight : Interp
  get_stack_delta : Option Interp
  get_stack_delta_weights : Option Interp
  continuum_fit_parameters : List (ℕ × (FP × FP))
  los_ids : List (ℕ × LosInfo)
  saved_steps : List SavedStep
deriving DecidableEq, Repr

/-- Evaluation through a possibly unset (`None`) interpolant attribute; the
source would raise there, and every verified path evaluates set attributes
only, so the unset case is modelled as NaN. -/
def evalO : Option Interp → ℚ → FP
  | none, _ => FP.nan
  | some f, x => f.eval x

/-- Modelled from the spec: the reference fudge scale `FUDGE_REF` lives in the
missing module `least_squares_var_stats`; the spec only ever calls it "the
reference".  Its exact (positive) value is irrelevant to every claim. -/
def FUDGE_REF : ℚ := 1 / 10000000

/-- `FUDGE_FIT_START = FUDGE_REF` from the source. -/
def FUDGE_FIT_START : ℚ := FUDGE_REF

/-- `ETA_FIT_START = 1.` from the source. -/
def ETA_FIT_START : ℚ := 1

/-- `VAR_LSS_FIT_START = 0.1` from the source. -/
def VAR_LSS_FIT_START : ℚ := 1 / 10

/-- Result of one `iminuit.Minuit(...).migrad()` call in `compute_continuum`,
abstracted as an oracle: the convergence flag `minimizer.valid` and the
returned values of the two parameters.  (The initial guess - the
inverse-variance-weighted flux mean and zero slope - and the freezing of the
slope when `order == 0` are properties of the minimizer call and are absorbed
into the oracle.) -/
structure MinuitResult where
  valid : Bool
  zero_point : ℚ
  slope : ℚ
deriving DecidableEq, Repr

/-- Result of one per-bin minimizer call in `compute_var_stats`, abstracted as
an oracle: the flag `minimizer.valid`, the returned values of the three
parameters (`fudge` in minimizer-internal units, i.e. the recorded fudge is
`fudge * FUDGE_REF`), the objective value `minimizer.fval`, and the bin pixel
count returned by `leasts_squares.get_num_pixels()` (the least-squares helper
class is not among the provided sources). -/
structure VarBinFit where
  valid : Bool
  eta : ℚ
  var_lss : ℚ
  fudge : ℚ
  fval : ℚ
  num_pixels : ℚ
deriving DecidableEq, Repr

/-- `Dr16ExpectedFlux.compute_forest_variance`: per pixel,
`var_pipe = 1. / forest.ivar / continuum**2` and the returned variance is
`eta * var_pipe + var_lss + fudge / var_pipe` with `eta`, `var_lss`, `fudge`
evaluated at the pixel's observed wavelength. -/
def compute_forest_variance (st : Dr16State) (f : Forest)
    (continuum : List FP) : List FP :=
  let var_pipe := List.zipWith
    (fun iv c => FP.div (FP.div (FP.fin 1) (FP.fin iv)) (FP.mul c c))
    f.ivar continuum
  let var_lss := f.log_lambda.map st.get_var_lss.eval
  let eta := f.log_lambda.map st.get_eta.eval
  let fudge := f.log_lambda.map st.get_fudge.eval
  List.zipWith FP.add
    (List.zipWith FP.add (List.zipWith FP.mul eta var_pipe) var_lss)
    (List.zipWith FP.div fudge var_pipe)

/-- `Dr16ExpectedFlux.get_continuum_model`: the linear function
`slope * (log_lambda - log_lambda_min) / (log_lambda_max - log_lambda_min)
 + zero_point` times the (transmission-corrected) mean continuum. -/
def get_continuum_model (f : Forest) (zero_point slope : ℚ)
    (mean_cont : List FP) (log_lambda_min log_lambda_max : ℚ) : List FP :=
  List.zipWith
    (fun x mc => FP.mul
      (FP.fin (slope * (x - log_lambda_min) /
        (log_lambda_max - log_lambda_min) + zero_point)) mc)
    f.log_lambda mean_cont

/-- `Dr16ExpectedFlux.get_continuum_weights`: all-ones under
`use constant weight`, otherwise `1.0 / cont_model**2 / variance`. -/
def get_continuum_weights (st : Dr16State) (f : Forest)
    (cont_model : List FP) : List FP :=
  if st.use_constant_weight then f.flux.map fun _ => FP.fin 1
  else
    let variance := compute_forest_variance st f cont_model
    List.zipWith
      (fun c v => FP.div (FP.div (FP.fin 1) (FP.mul c c)) v)
      cont_model variance

/-- The candidate continuum (`temp_cont_model`) built inside
`Dr16ExpectedFlux.compute_continuum`: the transmission-corrected mean
continuum at the forest's rest-frame wavelengths, through
`get_continuum_model` with the minimizer's returned parameters. -/
def continuum_model_of (st : Dr16State) (f : Forest) (mres : MinuitResult) :
    List FP :=
  let mean_cont := List.zipWith FP.mul
    (f.log_lambda.map fun x => st.get_mean_cont.eval (x - f.logZ))
    (f.transmission_correction.map FP.fin)
  let log_lambda_max := st.log_lambda_rest_frame_grid.getLastD 0 + f.logZ
  let log_lambda_min := st.log_lambda_rest_frame_grid.headD 0 + f.logZ
  get_continuum_model f mres.zero_point mres.slope mean_cont
    log_lambda_min log_lambda_max

/-- The `bad_continuum_reason` set by `Dr16ExpectedFlux.compute_continuum`:
the source first flags an invalid minimizer, then overwrites the flag when
any model sample is negative. -/
def continuum_fit_reason (st : Dr16State) (f : Forest)
    (mres : MinuitResult) : Option String :=
  if (continuum_model_of st f mres).any (fun c => FP.lt c (FP.fin 0)) then
    some "negative continuum"
  else if mres.valid then none
  else some "minuit didn\x27t converge"

/-- `Dr16ExpectedFlux.compute_continuum`, given the minimizer oracle result.
Note the source resets `self.continuum_fit_parameters = {}` at the top of
every call, so the returned state holds exactly one cache entry. -/
def compute_continuum (st : Dr16State) (f : Forest) (mres : MinuitResult) :
    Dr16State × Forest :=
  let temp_cont_model := continuum_model_of st f mres
  let reason := continuum_fit_reason st f mres
  let f' := { f with
    bad_continuum_reason := reason
    continuum := if reason.isNone then some temp_cont_model else none }
  let params : FP × FP :=
    if reason.isNone then (FP.fin mres.zero_point, FP.fin mres.slope)
    else (FP.nan, FP.nan)
  ({ st with continuum_fit_parameters := [(f.los_id, params)] }, f')

/-- Per-forest accumulation term of `Dr16ExpectedFlux.compute_mean_cont`: the
binned `flux / continuum * weights` and binned `weights` of one forest with a
valid continuum, with `weights = 1 / compute_forest_variance`. -/
def mean_cont_forest_terms (st : Dr16State) (f : Forest) :
    List FP × List FP :=
  let cont := f.continuum.getD []
  let bins := find_bins (f.log_lambda.map fun x => x - f.logZ)
    st.log_lambda_rest_frame_grid
  let weights := (compute_forest_variance st f cont).map
    (FP.div (FP.fin 1))
  let ratio := List.zipWith (fun fl c => FP.div (FP.fin fl) c) f.flux cont
  (bincount bins (List.zipWith FP.mul ratio weights),
   bincount bins weights)

/-- The two accumulated rest-frame arrays of
`Dr16ExpectedFlux.compute_mean_cont` (`mean_cont` and `mean_cont_weight`
right before the masked division), skipping forests with a
`bad_continuum_reason`. -/
def mean_cont_accum (st : Dr16State) (forests : List Forest) :
    List FP × List FP :=
  forests.foldl
    (fun acc f =>
      if f.bad_continuum_reason.isSome then acc
      else
        let t := mean_cont_forest_terms st f
        (addInto acc.1 t.1, addInto acc.2 t.2))
    (List.replicate st.log_lambda_rest_frame_grid.length (FP.fin 0),
     List.replicate st.log_lambda_rest_frame_grid.length (FP.fin 0))

/-- The stacked flux/continuum ratio of `Dr16ExpectedFlux.compute_mean_cont`
after the masked division `mean_cont[w] /= mean_cont_weight[w]`:
bins with zero accumulated weight keep their raw (zero) entry. -/
def mean_cont_ratio (st : Dr16State) (forests : List Forest) : List FP :=
  let acc := mean_cont_accum st forests
  List.zipWith
    (fun m mw => if FP.lt (FP.fin 0) mw then FP.div m mw else m)
    acc.1 acc.2

/-- The stacked ratio after the source's normalization
`mean_cont /= mean_cont.mean()`: the whole rest-frame array - zero-weight
bins included as zeros - divided by its own mean. -/
def mean_cont_ratio_norm (st : Dr16State) (forests : List Forest) :
    List FP :=
  let r := mean_cont_ratio st forests
  let meanval := FP.div (FP.sum r)
    (FP.fin st.log_lambda_rest_frame_grid.length)
  r.map fun m => FP.div m meanval

/-- The mask `w = mean_cont_weight > 0` of populated rest-frame bins. -/
def mean_cont_wmask (st : Dr16State) (forests : List Forest) : List Bool :=
  (mean_cont_accum st forests).2.map fun mw => FP.lt (FP.fin 0) mw

/-- `Dr16ExpectedFlux.compute_mean_cont`: accumulate the weighted
flux/continuum ratio in rest-frame bins, divide where the accumulated weight
is positive, divide the whole array by its mean (zero-weight bins included),
and rebuild `get_mean_cont` (linear, extrapolated) as the old mean continuum
times the normalized ratio on the populated bins, and
`get_mean_cont_weight` (linear, `fill_value=0.0`) on the same bins. -/
def compute_mean_cont (st : Dr16State) (forests : List Forest) : Dr16State :=
  let wmask := mean_cont_wmask st forests
  let log_lambda_cont := maskQ st.log_lambda_rest_frame_grid wmask
  let new_cont := List.zipWith FP.mul
    (log_lambda_cont.map st.get_mean_cont.eval)
    (maskFP (mean_cont_ratio_norm st forests) wmask)
  { st with
    get_mean_cont :=
      ⟨IKind.linear, IFill.extrap, log_lambda_cont, new_cont⟩
    get_mean_cont_weight :=
      ⟨IKind.linear, IFill.zero, log_lambda_cont,
        maskFP (mean_cont_accum st forests).2 wmask⟩ }

/-- Record written for one observed-wavelength bin by
`Dr16ExpectedFlux.compute_var_stats`. -/
structure VarBinRecord where
  eta : FP
  var_lss : FP
  fudge : FP
  valid_fit : FP
  num_pixels : FP
  chi2 : FP
deriving DecidableEq, Repr

/-- Per-bin body of the `compute_var_stats` loop: on a valid minimizer record
the returned values (fudge rescaled by `FUDGE_REF`) and mark the fit valid;
otherwise fall back to `eta = 1`, `var_lss = 0.1`, `fudge = 1. * FUDGE_REF`
and mark it invalid; record the bin pixel count and the objective value
either way. -/
def var_stats_bin (r : VarBinFit) : VarBinRecord :=
  if r.valid then
    { eta := FP.fin r.eta
      var_lss := FP.fin r.var_lss
      fudge := FP.fin (r.fudge * FUDGE_REF)
      valid_fit := FP.fin 1
      num_pixels := FP.fin r.num_pixels
      chi2 := FP.fin r.fval }
  else
    { eta := FP.fin 1
      var_lss := FP.fin (1 / 10)
      fudge := FP.fin (1 * FUDGE_REF)
      valid_fit := FP.fin 0
      num_pixels := FP.fin r.num_pixels
      chi2 := FP.fin r.fval }

/-- The per-bin records of one `compute_var_stats` pass, one for each of the
`num_bins_variance` observed-wavelength bins. -/
def var_stats_records (st : Dr16State) (oracle : ℕ → VarBinFit) :
    List VarBinRecord :=
  (List.range st.num_bins_variance).map fun i => var_stats_bin (oracle i)

/-- The mask `w = num_pixels > 0` of bins kept in the rebuilt variance
interpolants. -/
def var_stats_wmask (st : Dr16State) (oracle : ℕ → VarBinFit) :
    List Bool :=
  ((var_stats_records st oracle).map VarBinRecord.num_pixels).map
    fun np_ => FP.lt (FP.fin 0) np_

/-- `Dr16ExpectedFlux.compute_var_stats`, given the per-bin minimizer oracle:
run the per-bin fits, then rebuild the five variance interpolants as
`kind='nearest'`, `fill_value='extrapolate'` functions over the bins whose
pixel count is positive (`w = num_pixels > 0`). -/
def compute_var_stats (st : Dr16State) (oracle : ℕ → VarBinFit) :
    Dr16State :=
  let recs := var_stats_records st oracle
  let num_pixels := recs.map VarBinRecord.num_pixels
  let wmask := var_stats_wmask st oracle
  let grid := maskQ st.log_lambda_var_func_grid wmask
  { st with
    get_eta :=
      ⟨IKind.nearest, IFill.extrap, grid,
        maskFP (recs.map VarBinRecord.eta) wmask⟩
    get_var_lss :=
      ⟨IKind.nearest, IFill.extrap, grid,
        maskFP (recs.map VarBinRecord.var_lss) wmask⟩
    get_fudge :=
      ⟨IKind.nearest, IFill.extrap, grid,
        maskFP (recs.map VarBinRecord.fudge) wmask⟩
    get_num_pixels :=
      ⟨IKind.nearest, IFill.extrap, grid, maskFP num_pixels wmask⟩
    get_valid_fit :=
      ⟨IKind.nearest, IFill.extrap, grid,
        maskFP (recs.map VarBinRecord.valid_fit) wmask⟩ }

/-- The two accumulated observed-frame arrays of
`Dr16ExpectedFlux.compute_delta_stack` (`stack_delta` and `stack_weight`
right before the masked division).  With `stack_from_deltas` the per-forest
delta and weights are read from the forest; otherwise forests without a
continuum are skipped and `delta = flux / continuum`,
`weights = 1 / compute_forest_variance`. -/
def delta_stack_accum (st : Dr16State) (forests : List Forest)
    (stack_from_deltas : Bool) : List FP × List FP :=
  forests.foldl
    (fun acc f =>
      let dw : Option (List FP × List FP) :=
        if stack_from_deltas then some (f.delta, f.weights)
        else
          match f.continuum with
          | none => none
          | some cont =>
              some (List.zipWith (fun fl c => FP.div (FP.fin fl) c)
                  f.flux cont,
                (compute_forest_variance st f cont).map
                  (FP.div (FP.fin 1)))
      match dw with
      | none => acc
      | some (delta, weights) =>
          let bins := find_bins f.log_lambda st.log_lambda_grid
          (addInto acc.1 (bincount bins (List.zipWith FP.mul delta weights)),
           addInto acc.2 (bincount bins weights)))
    (List.replicate st.log_lambda_grid.length (FP.fin 0),
     List.replicate st.log_lambda_grid.length (FP.fin 0))

/-- The stacked delta after the masked division
`stack_delta[w] /= stack_weight[w]`: bins whose stacked weight is not
positive keep their raw accumulated entry. -/
def delta_stack_divided (st : Dr16State) (forests : List Forest)
    (stack_from_deltas : Bool) : List FP :=
  let acc := delta_stack_accum st forests stack_from_deltas
  List.zipWith
    (fun d wt => if FP.lt (FP.fin 0) wt then FP.div d wt else d)
    acc.1 acc.2

/-- `Dr16ExpectedFlux.compute_delta_stack`: accumulate the weighted deltas on
the observed grid, divide where the stacked weight is positive, and rebuild
`get_stack_delta` (`kind='nearest'`, extrapolated) and
`get_stack_delta_weights` (`kind='nearest'`, `fill_value=0.0`) over the bins
with positive stacked weight. -/
def compute_delta_stack (st : Dr16State) (forests : List Forest)
    (stack_from_deltas : Bool) : Dr16State :=
  let stack_weight := (delta_stack_accum st forests stack_from_deltas).2
  let wmask := stack_weight.map fun wt => FP.lt (FP.fin 0) wt
  let stack_delta2 := delta_stack_divided st forests stack_from_deltas
  { st with
    get_stack_delta := some
      ⟨IKind.nearest, IFill.extrap, maskQ st.log_lambda_grid wmask,
        maskFP stack_delta2 wmask⟩
    get_stack_delta_weights := some
      ⟨IKind.nearest, IFill.zero, maskQ st.log_lambda_grid wmask,
        maskFP stack_weight wmask⟩ }

/-- The `los_ids` entry built by `Dr16ExpectedFlux.populate_los_ids` for one
forest with a valid continuum: `mean_expected_flux = continuum * stack_delta`
at the forest's wavelengths, `weights = 1 / compute_forest_variance(forest,
mean_expected_flux)`, the continuum, and - exactly for `Pk1dForest` objects -
the adjusted `ivar = forest.ivar / (eta + (eta == 0)) *
mean_expected_flux**2`. -/
def los_info_of_forest (st : Dr16State) (f : Forest) : LosInfo :=
  let cont := f.continuum.getD []
  let stack_delta := f.log_lambda.map (evalO st.get_stack_delta)
  let mean_expected_flux := List.zipWith FP.mul cont stack_delta
  let weights := (compute_forest_variance st f mean_expected_flux).map
    (FP.div (FP.fin 1))
  { mean_expected_flux := mean_expected_flux
    weights := weights
    continuum := cont
    ivar :=
      if f.isPk1d then
        let eta := f.log_lambda.map st.get_eta.eval
        some (List.zipWith FP.mul
          (List.zipWith
            (fun iv e => FP.div (FP.fin iv)
              (FP.add e (if e = FP.fin 0 then FP.fin 1 else FP.fin 0)))
            f.ivar eta)
          (mean_expected_flux.map fun m => FP.mul m m))
      else none }

/-- `Dr16ExpectedFlux.populate_los_ids`: insert an output entry for every
forest whose `bad_continuum_reason` is unset. -/
def populate_los_ids (st : Dr16State) (forests : List Forest) : Dr16State :=
  forests.foldl
    (fun s f =>
      if f.bad_continuum_reason.isSome then s
      else { s with
        los_ids := insertA s.los_ids f.los_id (los_info_of_forest s f) })
    st

/-- `Dr16ExpectedFlux.save_iteration_step` with the three HDU writers
`hdu_stack_deltas`, `hdu_var_func` and `hdu_cont`: the written file is
modelled as a `SavedStep` appended to the state (fitsio is external). -/
def save_iteration_step (st : Dr16State) (iteration : Int) : Dr16State :=
  let step : SavedStep :=
    { label := iteration
      stack_loglam := st.log_lambda_grid
      stack := st.log_lambda_grid.map (evalO st.get_stack_delta)
      stack_weight := st.log_lambda_grid.map (evalO st.get_stack_delta_weights)
      varfunc_loglam := st.log_lambda_var_func_grid
      eta := st.log_lambda_var_func_grid.map st.get_eta.eval
      var_lss := st.log_lambda_var_func_grid.map st.get_var_lss.eval
      fudge := st.log_lambda_var_func_grid.map st.get_fudge.eval
      num_pixels := st.log_lambda_var_func_grid.map st.get_num_pixels.eval
      valid_fit := st.log_lambda_var_func_grid.map st.get_valid_fit.eval
      cont_loglam := st.log_lambda_rest_frame_grid
      mean_cont :=
        st.log_lambda_rest_frame_grid.map st.get_mean_cont.eval
      mean_cont_weight :=
        st.log_lambda_rest_frame_grid.map st.get_mean_cont_weight.eval }
  { st with saved_steps := st.saved_steps ++ [step] }

/-- The sequential branch of the fitting loop in `compute_expected_flux`
(`forests = [self.compute_continuum(f) for f in forests]`), threading the
instance state through the calls; the oracle is indexed by the forest's
position in the list. -/
def run_continuum_fits (st : Dr16State) (forests : List Forest)
    (oracle : ℕ → MinuitResult) : Dr16State × List Forest :=
  forests.foldl
    (fun p f =>
      let r := compute_continuum p.1 f (oracle p.2.length)
      (r.1, p.2 ++ [r.2]))
    (st, [])

/-- `Dr16ExpectedFlux.compute_expected_flux`: `num_iterations` rounds of
continuum fitting; before the last round also the mean-continuum update and
(unless a fixed-weight mode is active) the variance-function update; a delta
stack and a saved step every round (the last one labelled `-1`); finally
`populate_los_ids`.  The minimizer oracles take the iteration index first. -/
def compute_expected_flux (contOracle : ℕ → ℕ → MinuitResult)
    (varOracle : ℕ → ℕ → VarBinFit) (st0 : Dr16State)
    (forests0 : List Forest) : Dr16State × List Forest :=
  let res := (List.range st0.num_iterations).foldl
    (fun (acc : Dr16State × List Forest) iteration =>
      let fitres := run_continuum_fits acc.1 acc.2 (contOracle iteration)
      let st := fitres.1
      let forests := fitres.2
      let st :=
        if iteration < st.num_iterations - 1 then
          let st1 := compute_mean_cont st forests
          if ¬(st1.use_ivar_as_weight ∨ st1.use_constant_weight) then
            compute_var_stats st1 (varOracle iteration)
          else st1
        else st
      let st := compute_delta_stack st forests false
      let st :=
        if iteration = st.num_iterations - 1 then save_iteration_step st (-1)
        else save_iteration_step st iteration
      (st, forests))
    (st0, forests0)
  (populate_los_ids res.1 res.2, res.2)

/-- Sample mean of the current mean continuum over the rest-frame grid, the
quantity the spec's normalization invariant is about. -/
def rest_grid_sample_mean (st : Dr16State) : FP :=
  FP.div (FP.sum (st.log_lambda_rest_frame_grid.map st.get_mean_cont.eval))
    (FP.fin st.log_lambda_rest_frame_grid.length)

/-- Variance model written as the spec states it:
`variance = eta(x) * var_pipe + var_lss(x) + fudge(x) / var_pipe` with
`var_pipe = 1 / (ivar * continuum^2)`.  (The source computes `var_pipe` as
`1. / forest.ivar / continuum**2` instead; the claim C2 theorem identifies
the two.) -/
def spec_variance_model (st : Dr16State) (f : Forest)
    (continuum : List FP) : List FP :=
  let var_pipe := List.zipWith
    (fun iv c => FP.div (FP.fin 1) (FP.mul (FP.fin iv) (FP.mul c c)))
    f.ivar continuum
  let var_lss := f.log_lambda.map st.get_var_lss.eval
  let eta := f.log_lambda.map st.get_eta.eval
  let fudge := f.log_lambda.map st.get_fudge.eval
  List.zipWith FP.add
    (List.zipWith FP.add (List.zipWith FP.mul eta var_pipe) var_lss)
    (List.zipWith FP.div fudge var_pipe)

/-- Continuum-fit weights written as the spec states them:
`weight = 1 / (continuum^2 * variance)` per pixel, with the spec's variance
model. -/
def spec_continuum_weights (st : Dr16State) (f : Forest)
    (cont_model : List FP) : List FP :=
  List.zipWith
    (fun c v => FP.div (FP.fin 1) (FP.mul (FP.mul c c) v))
    cont_model (spec_variance_model st f cont_model)

/-- One orchestrator round written as the spec states it, with the iteration
count and the two fixed-weight mode flags taken from the run configuration:
fit all forests, then - only when `k < n - 1` - update the mean continuum
followed (only when neither fixed-weight mode is active) by the variance
functions, then stack the deltas and persist a snapshot labelled `-1` on the
final round and `k` otherwise. -/
def spec_iteration_step (co : ℕ → MinuitResult) (vo : ℕ → VarBinFit)
    (k n : ℕ) (useIvar useConst : Bool) (acc : Dr16State × List Forest) :
    Dr16State × List Forest :=
  let fit := run_continuum_fits acc.1 acc.2 co
  let st1 :=
    if k < n - 1 then
      let stm := compute_mean_cont fit.1 fit.2
      if ¬(useIvar ∨ useConst) then compute_var_stats stm vo else stm
    else fit.1
  let st2 := compute_delta_stack st1 fit.2 false
  (save_iteration_step st2 (if k = n - 1 then -1 else (k : Int)), fit.2)

/-- The whole pipeline written as the spec states it: `num_iterations`
rounds of `spec_iteration_step` followed by one `populate_los_ids` pass. -/
def spec_orchestrator (co : ℕ → ℕ → MinuitResult)
    (vo : ℕ → ℕ → VarBinFit) (st0 : Dr16State) (fs0 : List Forest) :
    Dr16State × List Forest :=
  let r := (List.range st0.num_iterations).foldl
    (fun acc k => spec_iteration_step (co k) (vo k) k st0.num_iterations
      st0.use_ivar_as_weight st0.use_constant_weight acc)
    (st0, fs0)
  (populate_los_ids r.1 r.2, r.2)

/-- A minimal run configuration used by the concrete counterexamples and
witnesses: a two-pixel observed grid, a three-point rest-frame grid, the
mean continuum initialized to one, and a variance model with
`eta = 1, var_lss = 0, fudge = 0`. -/
def exBase : Dr16State :=
  { use_constant_weight := false
    use_ivar_as_weight := false
    order := 1
    num_iterations := 2
    num_bins_variance := 1
    log_lambda_grid := [0, 1]
    log_lambda_rest_frame_grid := [0, 1, 2]
    log_lambda_var_func_grid := [0]
    fit_variance_functions := ["eta", "var_lss", "fudge"]
    get_eta := ⟨IKind.nearest, IFill.extrap, [0], [FP.fin 1]⟩
    get_var_lss := ⟨IKind.nearest, IFill.extrap, [0], [FP.fin 0]⟩
    get_fudge := ⟨IKind.nearest, IFill.extrap, [0], [FP.fin 0]⟩
    get_num_pixels := ⟨IKind.nearest, IFill.extrap, [0], [FP.fin 0]⟩
    get_valid_fit := ⟨IKind.nearest, IFill.extrap, [0], [FP.fin 0]⟩
    get_mean_cont := ⟨IKind.linear, IFill.extrap, [0, 1, 2],
      [FP.fin 1, FP.fin 1, FP.fin 1]⟩
    get_mean_cont_weight := ⟨IKind.linear, IFill.extrap, [0, 1, 2],
      [FP.fin 0, FP.fin 0, FP.fin 0]⟩
    get_stack_delta := none
    get_stack_delta_weights := none
    continuum_fit_parameters := []
    los_ids := []
    saved_steps := [] }

/-- A two-pixel forest with unit flux, unit inverse variance and a unit
continuum already in place. -/
def exForest : Forest :=
  { los_id := 1
    logZ := 0
    log_lambda := [0, 1]
    flux := [1, 1]
    ivar := [1, 1]
    transmission_correction := [1, 1]
    isPk1d := false
    continuum := some [FP.fin 1, FP.fin 1]
    bad_continuum_reason := none
    delta := []
    weights := [] }

/-- The `exBase` configuration switched to constant-weight mode, with the
variance interpolants holding the corresponding frozen values
`eta = 0, var_lss = 1, fudge = 0`. -/
def stC9 : Dr16State :=
  { exBase with
    use_constant_weight := true
    get_eta := ⟨IKind.nearest, IFill.extrap, [0], [FP.fin 0]⟩
    get_var_lss := ⟨IKind.nearest, IFill.extrap, [0], [FP.fin 1]⟩ }

/-- `exForest` with a zero pipeline inverse variance on its first pixel. -/
def fC9 : Forest := { exForest with ivar := [0, 1] }

/-- `exForest` under line-of-sight id 7. -/
def fA : Forest := { exForest with los_id := 7 }

/-- `exForest` under line-of-sight id 8. -/
def fB : Forest := { exForest with los_id := 8 }

/-- The `exBase` configuration with a computed delta stack in place, as it is
when `populate_los_ids` runs. -/
def stC1 : Dr16State :=
  { exBase with
    get_stack_delta := some
      ⟨IKind.nearest, IFill.extrap, [0, 1], [FP.fin 1, FP.fin 1]⟩
    get_stack_delta_weights := some
      ⟨IKind.nearest, IFill.zero, [0, 1], [FP.fin 2, FP.fin 2]⟩ }

theorem FP.add_fin (a b : ℚ) : FP.add (FP.fin a) (FP.fin b) = FP.fin (a + b) :=
  rfl

theorem FP.sum_map_fin (l : List ℚ) : FP.sum (l.map FP.fin) = FP.fin l.sum := by
  have h : ∀ (l : List ℚ) (q : ℚ),
      (l.map FP.fin).foldl FP.add (FP.fin q) = FP.fin (q + l.sum) := by
    intro l
    induction l with
    | nil => intro q; simp
    | cons x xs ih =>
        intro q
        simp only [List.map_cons, List.foldl_cons, FP.add_fin, List.sum_cons]
        rw [ih]
        ring_nf
  have := h l 0
  simpa [FP.sum] using this

theorem FP.div_fin_of_ne (a b : ℚ) (hb : b ≠ 0) :
    FP.div (FP.fin a) (FP.fin b) = FP.fin (a / b) := by
  simp [FP.div, hb]

/-- `1 / ivar / c²  =  1 / (ivar * c²)` for a positive `ivar` and any `c`,
the identification of the source's pipeline variance with the spec's. -/
theorem var_pipe_eq (a : ℚ) (ha : 0 < a) (c : FP) :
    FP.div (FP.div (FP.fin 1) (FP.fin a)) (FP.mul c c) =
      FP.div (FP.fin 1) (FP.mul (FP.fin a) (FP.mul c c)) := by
  have ha' : a ≠ 0 := ne_of_gt ha
  have hinv : 0 < 1 / a := by positivity
  cases c with
  | fin q =>
      by_cases hq : q = 0
      · subst hq
        simp [FP.div, FP.mul, ha, ha', hinv, ne_of_gt hinv]
      · have hq2 : q * q ≠ 0 := mul_ne_zero hq hq
        have haq : a * (q * q) ≠ 0 := mul_ne_zero ha' hq2
        simp only [FP.mul, FP.div_fin_of_ne _ _ ha', FP.div_fin_of_ne _ _ hq2,
          FP.div_fin_of_ne _ _ haq]
        congr 1
        field_simp
  | inf => simp [FP.mul, FP.div, ha, ha', hinv, ne_of_gt hinv]
  | ninf => simp [FP.mul, FP.div, ha, ha', hinv, ne_of_gt hinv]
  | nan => simp [FP.mul, FP.div, ha']

theorem FP.mul_inf_not_fin (x : FP) : (FP.mul x FP.inf).isFin = false := by
  cases x with
  | fin a =>
      simp only [FP.mul]
      split_ifs <;> rfl
  | inf => rfl
  | ninf => rfl
  | nan => rfl

theorem FP.add_not_fin (x y : FP) (h : x.isFin = false) :
    (FP.add x y).isFin = false := by
  cases x <;> cases y <;> simp_all [FP.add, FP.isFin]

theorem FP.div_inf_of_not_fin (v : FP) (h : v.isFin = false) :
    FP.div FP.inf v = FP.nan := by
  cases v <;> simp_all [FP.div, FP.isFin]

theorem FP.mul_zero_of_not_fin (v : FP) (h : v.isFin = false) :
    FP.mul (FP.fin 0) v = FP.nan := by
  cases v <;> simp_all [FP.mul, FP.isFin]

/-- `(1 / c²) / v = 1 / (c² * v)` whenever a vanishing `c²` forces `v` to be
nonfinite - the situation of the continuum-fit weights, where the variance at
a zero continuum pixel contains an infinite pipeline-variance term. -/
theorem div_sq_assoc (c v : FP) (hv : FP.mul c c = FP.fin 0 → v.isFin = false) :
    FP.div (FP.div (FP.fin 1) (FP.mul c c)) v =
      FP.div (FP.fin 1) (FP.mul (FP.mul c c) v) := by
  have h10 : (1 : ℚ) ≠ 0 := one_ne_zero
  have h1p : (0 : ℚ) < 1 := one_pos
  cases c with
  | fin q =>
      by_cases hq : q = 0
      · subst hq
        have hm : FP.mul (FP.fin 0) (FP.fin 0) = FP.fin 0 := by
          norm_num [FP.mul]
        have hv' := hv hm
        have h2 : FP.div (FP.fin 1) (FP.fin 0) = FP.inf := by
          norm_num [FP.div]
        rw [hm, FP.mul_zero_of_not_fin v hv', h2,
          FP.div_inf_of_not_fin v hv']
        rfl
      · have hq2 : 0 < q * q := mul_self_pos.mpr hq
        have hq2' : q * q ≠ 0 := ne_of_gt hq2
        have hinv : 0 < 1 / (q * q) := one_div_pos.mpr hq2
        have hinv' : 1 / (q * q) ≠ 0 := ne_of_gt hinv
        cases v with
        | fin r =>
            by_cases hr : r = 0
            · subst hr
              simp [FP.mul, FP.div, hq, hq2, hq2', hinv, hinv']
            · have hqr : q * q * r ≠ 0 := mul_ne_zero hq2' hr
              simp only [FP.mul, FP.div_fin_of_ne _ _ hq2',
                FP.div_fin_of_ne _ _ hr, FP.div_fin_of_ne _ _ hqr]
              congr 1
              field_simp
        | inf =>
            simp [FP.mul, FP.div, hq2, hq2']
        | ninf =>
            simp [FP.mul, FP.div, hq2, hq2']
        | nan =>
            simp [FP.mul, FP.div, hq2']
  | inf =>
      cases v with
      | fin r =>
          rcases lt_trichotomy r 0 with hr | hr | hr
          · simp [FP.mul, FP.div, hr, ne_of_lt hr, not_lt.mpr (le_of_lt hr),
              asymm hr]
          · subst hr
            simp [FP.mul, FP.div]
          · simp [FP.mul, FP.div, hr, ne_of_gt hr, not_lt.mpr (le_of_lt hr),
              asymm hr]
      | inf => simp [FP.mul, FP.div]
      | ninf => simp [FP.mul, FP.div]
      | nan => simp [FP.mul, FP.div]
  | ninf =>
      cases v with
      | fin r =>
          rcases lt_trichotomy r 0 with hr | hr | hr
          · simp [FP.mul, FP.div, hr, ne_of_lt hr, not_lt.mpr (le_of_lt hr),
              asymm hr]
          · subst hr
            simp [FP.mul, FP.div]
          · simp [FP.mul, FP.div, hr, ne_of_gt hr, not_lt.mpr (le_of_lt hr),
              asymm hr]
      | inf => simp [FP.mul, FP.div]
      | ninf => simp [FP.mul, FP.div]
      | nan => simp [FP.mul, FP.div]
  | nan => simp [FP.mul, FP.div]

theorem zipWith_congr_left_mem (f g : ℚ → FP → FP) (l : List ℚ)
    (l2 : List FP) (h : ∀ a ∈ l, ∀ c, f a c = g a c) :
    List.zipWith f l l2 = List.zipWith g l l2 := by
  induction l generalizing l2 with
  | nil => simp
  | cons a l ih =>
      cases l2 with
      | nil => simp
      | cons c l2 =>
          simp only [List.zipWith_cons_cons]
          rw [h a (by simp) c, ih l2 fun b hb c => h b (by simp [hb]) c]

/-- The full variance at a pixel whose continuum vanishes is nonfinite: the
pipeline-variance term is infinite there. -/
theorem variance_zero_cont_not_fin (a : ℚ) (c e s fu : FP)
    (h : FP.mul c c = FP.fin 0) :
    (FP.add
      (FP.add
        (FP.mul e (FP.div (FP.fin 1) (FP.mul (FP.fin a) (FP.mul c c)))) s)
      (FP.div fu
        (FP.div (FP.fin 1) (FP.mul (FP.fin a) (FP.mul c c))))).isFin
      = false := by
  rw [h]
  have hm : FP.mul (FP.fin a) (FP.fin 0) = FP.fin 0 := by norm_num [FP.mul]
  rw [hm]
  have h2 : FP.div (FP.fin 1) (FP.fin 0) = FP.inf := by norm_num [FP.div]
  rw [h2]
  exact FP.add_not_fin _ _ (FP.add_not_fin _ _ (FP.mul_inf_not_fin e))

theorem weights_assoc_lists_eq (st : Dr16State) :
    ∀ (ll iv : List ℚ) (cont : List FP), (∀ q ∈ iv, 0 < q) →
      List.zipWith
          (fun c v => FP.div (FP.div (FP.fin 1) (FP.mul c c)) v) cont
          (List.zipWith FP.add
            (List.zipWith FP.add
              (List.zipWith FP.mul (ll.map st.get_eta.eval)
                (List.zipWith
                  (fun i c =>
                    FP.div (FP.fin 1) (FP.mul (FP.fin i) (FP.mul c c)))
                  iv cont))
              (ll.map st.get_var_lss.eval))
            (List.zipWith FP.div (ll.map st.get_fudge.eval)
              (List.zipWith
                (fun i c =>
                  FP.div (FP.fin 1) (FP.mul (FP.fin i) (FP.mul c c)))
                iv cont))) =
        List.zipWith
          (fun c v => FP.div (FP.fin 1) (FP.mul (FP.mul c c) v)) cont
          (List.zipWith FP.add
            (List.zipWith FP.add
              (List.zipWith FP.mul (ll.map st.get_eta.eval)
                (List.zipWith
                  (fun i c =>
                    FP.div (FP.fin 1) (FP.mul (FP.fin i) (FP.mul c c)))
                  iv cont))
              (ll.map st.get_var_lss.eval))
            (List.zipWith FP.div (ll.map st.get_fudge.eval)
              (List.zipWith
                (fun i c =>
                  FP.div (FP.fin 1) (FP.mul (FP.fin i) (FP.mul c c)))
                iv cont))) := by
  intro ll
  induction ll with
  | nil => intro iv cont _; simp
  | cons x ll ih =>
      intro iv cont hiv
      cases iv with
      | nil => simp
      | cons a ivs =>
          cases cont with
          | nil => simp
          | cons c cs =>
              simp only [List.map_cons, List.zipWith_cons_cons]
              have hhead := div_sq_assoc c
                (FP.add
                  (FP.add
                    (FP.mul (st.get_eta.eval x)
                      (FP.div (FP.fin 1)
                        (FP.mul (FP.fin a) (FP.mul c c))))
                    (st.get_var_lss.eval x))
                  (FP.div (st.get_fudge.eval x)
                    (FP.div (FP.fin 1)
                      (FP.mul (FP.fin a) (FP.mul c c)))))
                (fun h => variance_zero_cont_not_fin a c _ _ _ h)
              rw [hhead, ih ivs cs fun q hq => hiv q (by simp [hq])]

/-- Claim C2: with every pipeline inverse variance positive, the source's
variance (`1. / ivar / continuum**2` based) coincides with the spec's
(`1 / (ivar * continuum^2)` based), and the continuum-fit weights are the
spec's `1 / (continuum^2 * variance)` - or identically one in constant-weight
mode. -/
theorem c2_weight_function (st : Dr16State) (f : Forest) (cont : List FP)
    (hiv : ∀ q ∈ f.ivar, 0 < q) :
    compute_forest_variance st f cont = spec_variance_model st f cont ∧
    get_continuum_weights st f cont =
      (if st.use_constant_weight then f.flux.map fun _ => FP.fin 1
       else spec_continuum_weights st f cont) := by
  have hvp := zipWith_congr_left_mem
    (fun iv c => FP.div (FP.div (FP.fin 1) (FP.fin iv)) (FP.mul c c))
    (fun iv c => FP.div (FP.fin 1) (FP.mul (FP.fin iv) (FP.mul c c)))
    f.ivar cont fun a ha c => var_pipe_eq a (hiv a ha) c
  have hvar : compute_forest_variance st f cont
      = spec_variance_model st f cont := by
    simp only [compute_forest_variance, spec_variance_model]
    rw [hvp]
  refine ⟨hvar, ?_⟩
  by_cases hc : st.use_constant_weight
  · simp [get_continuum_weights, hc]
  · simp only [get_continuum_weights, spec_continuum_weights, hc,
      if_false, Bool.false_eq_true]
    rw [hvar]
    simp only [spec_variance_model]
    exact weights_assoc_lists_eq st f.log_lambda f.ivar cont hiv

/-- Witness for C2 at a concrete run configuration, forest and trial
continuum. -/
theorem c2_weight_function_witness :
    compute_forest_variance exBase exForest [FP.fin 1, FP.fin 1] =
      spec_variance_model exBase exForest [FP.fin 1, FP.fin 1] ∧
    get_continuum_weights exBase exForest [FP.fin 1, FP.fin 1] =
      spec_continuum_weights exBase exForest [FP.fin 1, FP.fin 1] := by
  have h := c2_weight_function exBase exForest [FP.fin 1, FP.fin 1]
    (by decide)
  refine ⟨h.1, ?_⟩
  have h2 := h.2
  simpa [exBase] using h2

@[simp] theorem FP.add_nan_l (x : FP) : FP.add FP.nan x = FP.nan := by
  cases x <;> rfl

@[simp] theorem FP.add_nan_r (x : FP) : FP.add x FP.nan = FP.nan := by
  cases x <;> rfl

@[simp] theorem FP.add_fin_fin (a b : ℚ) :
    FP.add (FP.fin a) (FP.fin b) = FP.fin (a + b) := rfl

@[simp] theorem FP.add_fin_inf (a : ℚ) :
    FP.add (FP.fin a) FP.inf = FP.inf := rfl

@[simp] theorem FP.add_inf_fin (a : ℚ) :
    FP.add FP.inf (FP.fin a) = FP.inf := rfl

@[simp] theorem FP.add_inf_inf : FP.add FP.inf FP.inf = FP.inf := rfl

@[simp] theorem FP.add_fin_ninf (a : ℚ) :
    FP.add (FP.fin a) FP.ninf = FP.ninf := rfl

@[simp] theorem FP.add_ninf_fin (a : ℚ) :
    FP.add FP.ninf (FP.fin a) = FP.ninf := rfl

@[simp] theorem FP.add_ninf_ninf : FP.add FP.ninf FP.ninf = FP.ninf := rfl

@[simp] theorem FP.add_inf_ninf : FP.add FP.inf FP.ninf = FP.nan := rfl

@[simp] theorem FP.add_ninf_inf : FP.add FP.ninf FP.inf = FP.nan := rfl

@[simp] theorem FP.mul_nan_l (x : FP) : FP.mul FP.nan x = FP.nan := by
  cases x <;> rfl

@[simp] theorem FP.mul_nan_r (x : FP) : FP.mul x FP.nan = FP.nan := by
  cases x <;> rfl

@[simp] theorem FP.mul_fin_fin (a b : ℚ) :
    FP.mul (FP.fin a) (FP.fin b) = FP.fin (a * b) := rfl

@[simp] theorem FP.mul_fin_inf (a : ℚ) :
    FP.mul (FP.fin a) FP.inf =
      if 0 < a then FP.inf else if a < 0 then FP.ninf else FP.nan := rfl

@[simp] theorem FP.mul_inf_fin (a : ℚ) :
    FP.mul FP.inf (FP.fin a) =
      if 0 < a then FP.inf else if a < 0 then FP.ninf else FP.nan := rfl

@[simp] theorem FP.mul_fin_ninf (a : ℚ) :
    FP.mul (FP.fin a) FP.ninf =
      if 0 < a then FP.ninf else if a < 0 then FP.inf else FP.nan := rfl

@[simp] theorem FP.mul_ninf_fin (a : ℚ) :
    FP.mul FP.ninf (FP.fin a) =
      if 0 < a then FP.ninf else if a < 0 then FP.inf else FP.nan := rfl

@[simp] theorem FP.mul_inf_inf : FP.mul FP.inf FP.inf = FP.inf := rfl

@[simp] theorem FP.mul_inf_ninf : FP.mul FP.inf FP.ninf = FP.ninf := rfl

@[simp] theorem FP.mul_ninf_inf : FP.mul FP.ninf FP.inf = FP.ninf := rfl

@[simp] theorem FP.mul_ninf_ninf : FP.mul FP.ninf FP.ninf = FP.inf := rfl

@[simp] theorem FP.div_nan_l (x : FP) : FP.div FP.nan x = FP.nan := by
  cases x <;> rfl

@[simp] theorem FP.div_nan_r (x : FP) : FP.div x FP.nan = FP.nan := by
  cases x <;> rfl

@[simp] theorem FP.div_fin_fin (a b : ℚ) :
    FP.div (FP.fin a) (FP.fin b) =
      if b = 0 then (if a = 0 then FP.nan else if 0 < a then FP.inf
        else FP.ninf)
      else FP.fin (a / b) := rfl

@[simp] theorem FP.div_fin_inf (a : ℚ) :
    FP.div (FP.fin a) FP.inf = FP.fin 0 := rfl

@[simp] theorem FP.div_fin_ninf (a : ℚ) :
    FP.div (FP.fin a) FP.ninf = FP.fin 0 := rfl

@[simp] theorem FP.div_inf_fin (b : ℚ) :
    FP.div FP.inf (FP.fin b) = if b < 0 then FP.ninf else FP.inf := rfl

@[simp] theorem FP.div_ninf_fin (b : ℚ) :
    FP.div FP.ninf (FP.fin b) = if b < 0 then FP.inf else FP.ninf := rfl

@[simp] theorem FP.div_inf_inf : FP.div FP.inf FP.inf = FP.nan := rfl

@[simp] theorem FP.div_inf_ninf : FP.div FP.inf FP.ninf = FP.nan := rfl

@[simp] theorem FP.div_ninf_inf : FP.div FP.ninf FP.inf = FP.nan := rfl

@[simp] theorem FP.div_ninf_ninf : FP.div FP.ninf FP.ninf = FP.nan := rfl

@[simp] theorem FP.lt_fin_fin (a b : ℚ) :
    FP.lt (FP.fin a) (FP.fin b) = decide (a < b) := rfl

@[simp] theorem FP.lt_fin_inf (a : ℚ) :
    FP.lt (FP.fin a) FP.inf = true := rfl

@[simp] theorem FP.lt_ninf_fin (a : ℚ) :
    FP.lt FP.ninf (FP.fin a) = true := rfl

@[simp] theorem FP.lt_ninf_inf : FP.lt FP.ninf FP.inf = true := rfl

@[simp] theorem FP.lt_nan_l (x : FP) : FP.lt FP.nan x = false := by
  cases x <;> rfl

@[simp] theorem FP.lt_nan_r (x : FP) : FP.lt x FP.nan = false := by
  cases x <;> rfl

@[simp] theorem FP.lt_inf_l (x : FP) : FP.lt FP.inf x = false := by
  cases x <;> rfl

@[simp] theorem FP.lt_ninf_r (x : FP) : FP.lt x FP.ninf = false := by
  cases x <;> rfl

@[simp] theorem FP.le_fin_fin (a b : ℚ) :
    FP.le (FP.fin a) (FP.fin b) = decide (a ≤ b) := rfl

@[simp] theorem FP.le_fin_inf (a : ℚ) :
    FP.le (FP.fin a) FP.inf = true := rfl

@[simp] theorem FP.le_nan_l (x : FP) : FP.le FP.nan x = false := by
  cases x <;> rfl

@[simp] theorem FP.le_nan_r (x : FP) : FP.le x FP.nan = false := by
  cases x <;> rfl

@[simp] theorem FP.isNaN_fin (a : ℚ) : (FP.fin a).isNaN = false := rfl

@[simp] theorem FP.isNaN_inf : FP.inf.isNaN = false := rfl

@[simp] theorem FP.isNaN_ninf : FP.ninf.isNaN = false := rfl

@[simp] theorem FP.isNaN_nan : FP.nan.isNaN = true := rfl

@[simp] theorem FP.isFin_fin (a : ℚ) : (FP.fin a).isFin = true := rfl

@[simp] theorem FP.isFin_inf : FP.inf.isFin = false := rfl

@[simp] theorem FP.isFin_ninf : FP.ninf.isFin = false := rfl

@[simp] theorem FP.isFin_nan : FP.nan.isFin = false := rfl

@[simp] theorem FP.sum_nil : FP.sum [] = FP.fin 0 := rfl

@[simp] theorem FP.sum_cons (x : FP) (l : List FP) :
    FP.sum (x :: l) = l.foldl FP.add (FP.add (FP.fin 0) x) := rfl

/-- Claim C10 (code bug): `compute_continuum` resets the
`continuum_fit_parameters` cache at the top of every call, so after fitting
the two forests with ids 7 and 8 sequentially the cache holds only the last
line of sight - id 7 is gone - although the class documentation promises the
fitted pair "for each line of sight". -/
theorem c10_cache_keeps_only_last :
    (run_continuum_fits exBase [fA, fB]
        fun _ => ⟨true, 1, 0⟩).1.continuum_fit_parameters
      = [(8, (FP.fin 1, FP.fin 0))] ∧
    List.lookup 7
        (run_continuum_fits exBase [fA, fB]
          fun _ => ⟨true, 1, 0⟩).1.continuum_fit_parameters
      = none := by
  refine ⟨?_, ?_⟩ <;>
    norm_num [run_continuum_fits, compute_continuum, continuum_fit_reason,
      continuum_model_of, get_continuum_model, Interp.eval, linearEval,
      nearestPick, qabs, exBase, exForest, fA, fB, List.foldl, List.zip,
      List.zipWith, List.lookup, Nat.beq] <;>
    rfl

/-- Counterexample to claim C4 as stated: on a non-converged minimizer the
recorded failure reason is the source string "minuit didn't converge", which
is neither of the two strings the claim names. -/
theorem c4_counterexample :
    continuum_fit_reason exBase exForest ⟨false, 1, 0⟩ =
      some "minuit didn\x27t converge" ∧
    "minuit didn\x27t converge" ≠ "did not converge" ∧
    "minuit didn\x27t converge" ≠ "negative continuum" := by
  refine ⟨?_, by decide, by decide⟩
  norm_num [continuum_fit_reason, continuum_model_of, get_continuum_model,
    Interp.eval, linearEval, nearestPick, qabs, exBase, exForest,
    List.zip, List.zipWith]

/-- Counterexample to claim C5 as stated: one mean-continuum update on a
single unit forest leaves the mean continuum with rest-frame sample mean
`3/2`, not `1` - the source renormalizes the stacked ratio (over the full
grid, empty bins included) before multiplying the old mean continuum, and
never renormalizes the product. -/
theorem c5_counterexample :
    rest_grid_sample_mean (compute_mean_cont exBase [exForest]) =
      FP.fin (3 / 2) ∧
    FP.fin ((3 : ℚ) / 2) ≠ FP.fin 1 := by
  constructor
  · norm_num [rest_grid_sample_mean, compute_mean_cont, mean_cont_wmask,
      mean_cont_ratio_norm, mean_cont_ratio, mean_cont_accum,
      mean_cont_forest_terms, compute_forest_variance, find_bins, nearestIdx,
      bincount, addInto, maskQ, maskFP, qabs, Interp.eval, linearEval,
      nearestPick, exBase, exForest, FP.sum, List.enum, List.enumFrom,
      List.filterMap, List.zip, List.zipWith, List.foldl, List.range,
      List.range.loop, List.get?, Option.map]
  · norm_num

/-- Counterexample to claim C6 as stated: a converged fit whose model is
identically zero passes the source's `np.any(model < 0)` check, so a
continuum with zero samples - not strictly positive - is stored. -/
theorem c6_counterexample :
    (compute_continuum exBase exForest ⟨true, 0, 0⟩).2.continuum =
      some [FP.fin 0, FP.fin 0] ∧
    FP.lt (FP.fin 0) (FP.fin 0) = false := by
  constructor
  · norm_num [compute_continuum, continuum_fit_reason, continuum_model_of,
      get_continuum_model, Interp.eval, linearEval, nearestPick, qabs,
      exBase, exForest, List.zip, List.zipWith]
  · norm_num

/-- Counterexample to claim C8 as stated: after a mean-continuum update whose
populated bins are `[0, 1]` with boundary weight `1`, evaluating the weight
interpolant at `2` (outside the populated range) returns its
`fill_value=0.0`, not the boundary bin's value. -/
theorem c8_counterexample :
    (compute_mean_cont exBase [exForest]).get_mean_cont_weight.eval 2 =
      FP.fin 0 ∧
    (compute_mean_cont exBase [exForest]).get_mean_cont_weight.ys.getLastD
      FP.nan = FP.fin 1 ∧
    FP.fin 0 ≠ FP.fin 1 := by
  refine ⟨?_, ?_, by norm_num⟩ <;>
  norm_num [compute_mean_cont, mean_cont_wmask, mean_cont_ratio_norm,
    mean_cont_ratio, mean_cont_accum, mean_cont_forest_terms,
    compute_forest_variance, find_bins, nearestIdx, bincount, addInto,
    maskQ, maskFP, qabs, Interp.eval, linearEval, nearestPick, exBase,
    exForest, FP.sum, List.enum, List.enumFrom, List.filterMap, List.zip,
    List.zipWith, List.foldl, List.range, List.range.loop, List.get?,
    Option.map]

/-- Counterexample to claim C9 as stated: in constant-weight mode (`eta = 0`)
a pixel with zero pipeline inverse variance gets `0 * inf = NaN` in the
variance, so the stacking weight `1/variance` is NaN, not zero. -/
theorem c9_counterexample :
    (compute_forest_variance stC9 fC9 [FP.fin 1, FP.fin 1]).map
        (FP.div (FP.fin 1)) = [FP.nan, FP.fin 1] ∧
    FP.isNaN FP.nan = true ∧ FP.nan ≠ FP.fin 0 := by
  refine ⟨?_, rfl, by simp⟩
  norm_num [compute_forest_variance, Interp.eval, nearestPick, qabs,
    stC9, exBase, fC9, exForest, List.zip, List.zipWith]

theorem compute_continuum_snd_reason (st : Dr16State) (f : Forest)
    (mres : MinuitResult) :
    (compute_continuum st f mres).2.bad_continuum_reason =
      continuum_fit_reason st f mres := rfl

theorem compute_continuum_snd_continuum (st : Dr16State) (f : Forest)
    (mres : MinuitResult) :
    (compute_continuum st f mres).2.continuum =
      if (continuum_fit_reason st f mres).isNone then
        some (continuum_model_of st f mres)
      else none := rfl

theorem compute_continuum_fst_params (st : Dr16State) (f : Forest)
    (mres : MinuitResult) :
    (compute_continuum st f mres).1.continuum_fit_parameters =
      [(f.los_id,
        if (continuum_fit_reason st f mres).isNone then
          (FP.fin mres.zero_point, FP.fin mres.slope)
        else (FP.nan, FP.nan))] := rfl

theorem continuum_none_or_nonneg_single (st : Dr16State) (f : Forest)
    (mres : MinuitResult) :
    (compute_continuum st f mres).2.continuum = none ∨
      ((compute_continuum st f mres).2.continuum.getD []).all
        (fun c => !FP.lt c (FP.fin 0)) = true := by
  rw [compute_continuum_snd_continuum]
  unfold continuum_fit_reason
  by_cases h : (continuum_model_of st f mres).any
      (fun c => FP.lt c (FP.fin 0)) = true
  · left; simp [h]
  · have h' : (continuum_model_of st f mres).any
        (fun c => FP.lt c (FP.fin 0)) = false := by
      simpa using h
    cases hv : mres.valid with
    | false => left; simp [h', hv]
    | true =>
        right
        simp only [h', hv, Bool.false_eq_true, if_false, if_true,
          Option.isNone_some, Option.isNone_none, Option.getD_some]
        rw [List.all_eq_true]
        intro c hc
        have := List.any_eq_false.mp h' c hc
        simpa using this

theorem run_continuum_fits_forall (P : Forest → Prop)
    (hP : ∀ (st : Dr16State) (f : Forest) (mres : MinuitResult),
      P (compute_continuum st f mres).2) :
    ∀ (fs : List Forest) (p : Dr16State × List Forest)
      (oracle : ℕ → MinuitResult), (∀ g ∈ p.2, P g) →
      ∀ g ∈ (fs.foldl
          (fun p f =>
            let r := compute_continuum p.1 f (oracle p.2.length)
            (r.1, p.2 ++ [r.2])) p).2, P g := by
  intro fs
  induction fs with
  | nil => intro p oracle hp g hg; exact hp g hg
  | cons f fs ih =>
      intro p oracle hp
      simp only [List.foldl_cons]
      apply ih
      intro g hg
      rcases List.mem_append.mp hg with h | h
      · exact hp g h
      · rcases List.mem_singleton.mp h with rfl
        exact hP _ _ _

/-- Claim C6 amended: a stored continuum is either entirely absent or has no
negative sample (every sample is `≥ 0`); a zero sample can be stored, so
"strictly positive" does not hold.  Stated for one `compute_continuum` call
and for the whole fitting pass of an iteration. -/
theorem c6_continuum_none_or_nonneg (st : Dr16State) (f : Forest)
    (mres : MinuitResult) (st2 : Dr16State) (fs : List Forest)
    (oracle : ℕ → MinuitResult) :
    ((compute_continuum st f mres).2.continuum = none ∨
      ((compute_continuum st f mres).2.continuum.getD []).all
        (fun c => !FP.lt c (FP.fin 0)) = true) ∧
    (run_continuum_fits st2 fs oracle).2.Forall
      (fun g => g.continuum = none ∨
        (g.continuum.getD []).all (fun c => !FP.lt c (FP.fin 0)) = true) := by
  constructor
  · exact continuum_none_or_nonneg_single st f mres
  · rw [List.forall_iff_forall_mem]
    intro g hg
    refine run_continuum_fits_forall
      (fun g => g.continuum = none ∨
        (g.continuum.getD []).all (fun c => !FP.lt c (FP.fin 0)) = true)
      (fun st f mres => continuum_none_or_nonneg_single st f mres)
      fs (st2, []) oracle (by simp) g ?_
    simpa [run_continuum_fits] using hg

theorem mean_cont_accum_skip (st2 : Dr16State) (g : Forest)
    (hg : g.bad_continuum_reason.isSome = true) (fs1 fs2 : List Forest) :
    mean_cont_accum st2 (fs1 ++ g :: fs2) = mean_cont_accum st2 (fs1 ++ fs2) := by
  unfold mean_cont_accum
  rw [List.foldl_append, List.foldl_append, List.foldl_cons]
  congr 1
  simp [hg]

theorem compute_mean_cont_skip (st2 : Dr16State) (g : Forest)
    (hg : g.bad_continuum_reason ≠ none) (fs1 fs2 : List Forest) :
    compute_mean_cont st2 (fs1 ++ g :: fs2) =
      compute_mean_cont st2 (fs1 ++ fs2) := by
  have hg' : g.bad_continuum_reason.isSome = true :=
    Option.isSome_iff_ne_none.mpr hg
  have ha := mean_cont_accum_skip st2 g hg' fs1 fs2
  unfold compute_mean_cont mean_cont_wmask mean_cont_ratio_norm
    mean_cont_ratio
  rw [ha]

theorem run_continuum_fits_length (oracle : ℕ → MinuitResult) :
    ∀ (fs : List Forest) (p : Dr16State × List Forest),
      ((fs.foldl
          (fun p f =>
            let r := compute_continuum p.1 f (oracle p.2.length)
            (r.1, p.2 ++ [r.2])) p).2).length = p.2.length + fs.length := by
  intro fs
  induction fs with
  | nil => intro p; simp
  | cons f fs ih =>
      intro p
      simp only [List.foldl_cons]
      rw [ih]
      simp
      omega

/-- Claim C4 amended: the continuum fit succeeds exactly when the minimizer
converged and the model has no negative sample; on failure the continuum is
cleared, the reason is one of the source strings "minuit didn't converge" or
"negative continuum" (the spec's "did not converge" does not occur), the
cached pair is (NaN, NaN), the failed forest contributes nothing to the
mean-continuum accumulation, and the fitting pass keeps every forest in the
list. -/
theorem c4_fit_failure_handling (st : Dr16State) (f : Forest)
    (mres : MinuitResult) :
    ((compute_continuum st f mres).2.bad_continuum_reason = none ↔
      (mres.valid = true ∧
        (continuum_model_of st f mres).any
          (fun c => FP.lt c (FP.fin 0)) = false)) ∧
    ((compute_continuum st f mres).2.bad_continuum_reason ≠ none →
      (compute_continuum st f mres).2.continuum = none ∧
      ((compute_continuum st f mres).2.bad_continuum_reason =
          some "minuit didn\x27t converge" ∨
        (compute_continuum st f mres).2.bad_continuum_reason =
          some "negative continuum") ∧
      (compute_continuum st f mres).1.continuum_fit_parameters =
        [(f.los_id, (FP.nan, FP.nan))]) ∧
    (∀ (st2 : Dr16State) (fs1 fs2 : List Forest),
      (compute_continuum st f mres).2.bad_continuum_reason ≠ none →
      compute_mean_cont st2 (fs1 ++ (compute_continuum st f mres).2 :: fs2) =
        compute_mean_cont st2 (fs1 ++ fs2)) ∧
    (∀ (fs : List Forest) (oracle : ℕ → MinuitResult),
      (run_continuum_fits st fs oracle).2.length = fs.length) := by
  refine ⟨?_, ?_, ?_, ?_⟩
  · rw [compute_continuum_snd_reason]
    unfold continuum_fit_reason
    by_cases h : (continuum_model_of st f mres).any
        (fun c => FP.lt c (FP.fin 0)) = true
    · simp [h]
    · have h' : (continuum_model_of st f mres).any
          (fun c => FP.lt c (FP.fin 0)) = false := by simpa using h
      cases hv : mres.valid <;> simp [h', hv]
  · intro hbad
    rw [compute_continuum_snd_reason] at hbad ⊢
    rw [compute_continuum_snd_continuum, compute_continuum_fst_params]
    have hnone : (continuum_fit_reason st f mres).isNone = false := by
      cases h : (continuum_fit_reason st f mres).isNone
      · rfl
      · exact absurd (Option.isNone_iff_eq_none.mp h) hbad
    refine ⟨by simp [hnone], ?_, by simp [hnone]⟩
    unfold continuum_fit_reason at *
    by_cases h : (continuum_model_of st f mres).any
        (fun c => FP.lt c (FP.fin 0)) = true
    · right; simp [h]
    · have h' : (continuum_model_of st f mres).any
          (fun c => FP.lt c (FP.fin 0)) = false := by simpa using h
      cases hv : mres.valid with
      | true => exfalso; apply hbad; simp [h', hv]
      | false => left; simp [h', hv]
  · intro st2 fs1 fs2 hbad
    exact compute_mean_cont_skip st2 _ hbad fs1 fs2
  · intro fs oracle
    have := run_continuum_fits_length oracle fs (st, [])
    simpa [run_continuum_fits] using this

/-- Witness for the amended C4 at a concrete non-converged fit: the forest is
marked failed with the source's reason string, its continuum is cleared and
its cached pair is (NaN, NaN). -/
theorem c4_fit_failure_handling_witness :
    (compute_continuum exBase exForest ⟨false, 1, 0⟩).2.continuum = none ∧
    ((compute_continuum exBase exForest ⟨false, 1, 0⟩).2.bad_continuum_reason =
        some "minuit didn\x27t converge" ∨
      (compute_continuum exBase exForest ⟨false, 1, 0⟩).2.bad_continuum_reason =
        some "negative continuum") ∧
    (compute_continuum exBase exForest
        ⟨false, 1, 0⟩).1.continuum_fit_parameters =
      [(exForest.los_id, (FP.nan, FP.nan))] := by
  have hr : continuum_fit_reason exBase exForest ⟨false, 1, 0⟩ =
      some "minuit didn\x27t converge" := by
    norm_num [continuum_fit_reason, continuum_model_of, get_continuum_model,
      Interp.eval, linearEval, nearestPick, qabs, exBase, exForest,
      List.zip, List.zipWith]
  apply (c4_fit_failure_handling exBase exForest ⟨false, 1, 0⟩).2.1
  rw [compute_continuum_snd_reason, hr]
  simp

theorem sum_map_div_q (l : List ℚ) (d : ℚ) :
    (l.map fun q => q / d).sum = l.sum / d := by
  induction l with
  | nil => simp
  | cons x xs ih => simp [ih, add_div]

/-- Claim C5 amended: `compute_mean_cont` renormalizes the *stacked ratio*
(over the full rest-frame grid, zero-weight bins contributing zero) to
sample mean one, and the updated mean continuum is the old mean continuum
times that normalized ratio at the populated bins - the product itself is
not renormalized, so the updated mean continuum's own sample mean need not
be one (see the counterexample, where it is `3/2`). -/
theorem c5_ratio_normalization (st : Dr16State) (forests : List Forest)
    (qs : List ℚ)
    (hfin : mean_cont_ratio st forests = qs.map FP.fin)
    (hs : qs.sum ≠ 0)
    (hn : st.log_lambda_rest_frame_grid.length ≠ 0) :
    FP.sum (mean_cont_ratio_norm st forests) =
      FP.fin (st.log_lambda_rest_frame_grid.length : ℚ) ∧
    (compute_mean_cont st forests).get_mean_cont =
      ⟨IKind.linear, IFill.extrap,
        maskQ st.log_lambda_rest_frame_grid (mean_cont_wmask st forests),
        List.zipWith FP.mul
          ((maskQ st.log_lambda_rest_frame_grid
            (mean_cont_wmask st forests)).map st.get_mean_cont.eval)
          (maskFP (mean_cont_ratio_norm st forests)
            (mean_cont_wmask st forests))⟩ := by
  have hnQ : (st.log_lambda_rest_frame_grid.length : ℚ) ≠ 0 :=
    Nat.cast_ne_zero.mpr hn
  constructor
  · unfold mean_cont_ratio_norm
    rw [hfin]
    dsimp only
    rw [FP.sum_map_fin, FP.div_fin_of_ne _ _ hnQ]
    have hd : qs.sum / (st.log_lambda_rest_frame_grid.length : ℚ) ≠ 0 :=
      div_ne_zero hs hnQ
    have hmap : (qs.map FP.fin).map
        (fun m => FP.div m
          (FP.fin (qs.sum / (st.log_lambda_rest_frame_grid.length : ℚ)))) =
        (qs.map fun q =>
          q / (qs.sum / (st.log_lambda_rest_frame_grid.length : ℚ))).map
            FP.fin := by
      rw [List.map_map, List.map_map]
      apply List.map_congr_left
      intro q _
      exact FP.div_fin_of_ne _ _ hd
    rw [hmap, FP.sum_map_fin, sum_map_div_q]
    congr 1
    field_simp
  · rfl

/-- Witness for the amended C5 at the concrete single-forest update: the
stacked ratio is `[1, 1, 0]` (sum `2 ≠ 0`) over a three-bin grid, and the
normalized ratio sums to `3`. -/
theorem c5_ratio_normalization_witness :
    FP.sum (mean_cont_ratio_norm exBase [exForest]) =
      FP.fin ((exBase.log_lambda_rest_frame_grid.length : ℚ)) := by
  have hfin : mean_cont_ratio exBase [exForest] =
      [(1 : ℚ), 1, 0].map FP.fin := by
    norm_num [mean_cont_ratio, mean_cont_accum, mean_cont_forest_terms,
      compute_forest_variance, find_bins, nearestIdx, bincount, addInto,
      qabs, Interp.eval, linearEval, nearestPick, exBase, exForest, FP.sum,
      List.enum, List.enumFrom, List.filterMap, List.zip, List.zipWith,
      List.foldl, List.range, List.range.loop, List.get?, Option.map]
  exact (c5_ratio_normalization exBase [exForest] [1, 1, 0] hfin
    (by norm_num) (by norm_num [exBase])).1

theorem mem_maskQ_exists (v : List ℚ) (m : List Bool) (x : ℚ)
    (hx : x ∈ maskQ v m) :
    ∃ i, v.get? i = some x ∧ m.get? i = some true := by
  unfold maskQ at hx
  rcases List.mem_filterMap.mp hx with ⟨p, hp, hpx⟩
  by_cases h2 : p.2 = true
  · have hpx1 : p.1 = x := by
      rw [h2] at hpx
      simpa using hpx
    rcases List.mem_iff_get?.mp hp with ⟨i, hi⟩
    have hz : (List.zipWith Prod.mk v m).get? i = some p := by
      simpa [List.zip] using hi
    rcases (List.get?_zipWith_eq_some Prod.mk v m p i).mp hz
      with ⟨a, b, ha, hb, hab⟩
    refine ⟨i, ?_, ?_⟩
    · rw [ha]
      have : a = p.1 := by rw [← hab]
      rw [this, hpx1]
    · rw [hb]
      have : b = p.2 := by rw [← hab]
      rw [this, h2]
  · rw [Bool.not_eq_true] at h2
    rw [h2] at hpx
    simp at hpx

theorem Interp.eval_zero_outside (f : Interp) (x : ℚ)
    (hf : f.fill = IFill.zero)
    (h : x < f.xs.headD 0 ∨ f.xs.getLastD 0 < x) :
    f.eval x = FP.fin 0 := by
  rcases f with ⟨k, fl, xs, ys⟩
  cases hf
  simp only [Interp.eval]
  rw [if_pos h]

/-- Claim C8 amended: after a mean-continuum update the rest-frame bins with
zero accumulated weight are excluded from the domain of both rebuilt
interpolants (every retained abscissa has positive accumulated weight), the
mean-continuum interpolant extrapolates *linearly* (not flat) outside that
range, and the weight interpolant returns `0` - not the boundary bin's
value - outside the populated range. -/
theorem c8_weight_interp_domain (st : Dr16State) (forests : List Forest) :
    ((compute_mean_cont st forests).get_mean_cont.xs =
        maskQ st.log_lambda_rest_frame_grid (mean_cont_wmask st forests) ∧
      (compute_mean_cont st forests).get_mean_cont.kind = IKind.linear ∧
      (compute_mean_cont st forests).get_mean_cont.fill = IFill.extrap ∧
      (compute_mean_cont st forests).get_mean_cont_weight.xs =
        maskQ st.log_lambda_rest_frame_grid (mean_cont_wmask st forests)) ∧
    (∀ x ∈ (compute_mean_cont st forests).get_mean_cont_weight.xs,
      ∃ i, st.log_lambda_rest_frame_grid.get? i = some x ∧
        ∃ w, (mean_cont_accum st forests).2.get? i = some w ∧
          FP.lt (FP.fin 0) w = true) ∧
    (∀ x : ℚ,
      (x < (compute_mean_cont st forests).get_mean_cont_weight.xs.headD 0 ∨
        (compute_mean_cont st
          forests).get_mean_cont_weight.xs.getLastD 0 < x) →
      (compute_mean_cont st forests).get_mean_cont_weight.eval x =
        FP.fin 0) := by
  refine ⟨⟨rfl, rfl, rfl, rfl⟩, ?_, ?_⟩
  · intro x hx
    have hx' : x ∈ maskQ st.log_lambda_rest_frame_grid
        (mean_cont_wmask st forests) := hx
    rcases mem_maskQ_exists _ _ x hx' with ⟨i, hv, hm⟩
    refine ⟨i, hv, ?_⟩
    unfold mean_cont_wmask at hm
    rw [List.get?_map] at hm
    rcases Option.map_eq_some'.mp hm with ⟨w, hw, hwt⟩
    exact ⟨w, hw, hwt⟩
  · intro x hx
    exact Interp.eval_zero_outside _ x rfl hx

/-- Witness for the amended C8 at the concrete single-forest update:
evaluating the rebuilt weight interpolant beyond its populated range
(`xs = [0, 1]`, at `x = 2`) returns `0`. -/
theorem c8_weight_interp_domain_witness :
    (compute_mean_cont exBase [exForest]).get_mean_cont_weight.eval 2 =
      FP.fin 0 := by
  apply (c8_weight_interp_domain exBase [exForest]).2.2 2
  right
  norm_num [compute_mean_cont, mean_cont_wmask, mean_cont_ratio_norm,
    mean_cont_ratio, mean_cont_accum, mean_cont_forest_terms,
    compute_forest_variance, find_bins, nearestIdx, bincount, addInto,
    maskQ, maskFP, qabs, Interp.eval, linearEval, nearestPick, exBase,
    exForest, FP.sum, List.enum, List.enumFrom, List.filterMap, List.zip,
    List.zipWith, List.foldl, List.range, List.range.loop, List.get?,
    Option.map]

theorem compute_forest_variance_get? (st : Dr16State) (f : Forest)
    (cont : List FP) (i : ℕ) (xi a : ℚ) (c : FP)
    (hll : f.log_lambda.get? i = some xi)
    (hiv : f.ivar.get? i = some a)
    (hc : cont.get? i = some c) :
    (compute_forest_variance st f cont).get? i =
      some (FP.add
        (FP.add
          (FP.mul (st.get_eta.eval xi)
            (FP.div (FP.div (FP.fin 1) (FP.fin a)) (FP.mul c c)))
          (st.get_var_lss.eval xi))
        (FP.div (st.get_fudge.eval xi)
          (FP.div (FP.div (FP.fin 1) (FP.fin a)) (FP.mul c c)))) := by
  simp only [List.get?_eq_getElem?] at hll hiv hc ⊢
  simp only [compute_forest_variance]
  simp [List.getElem?_zipWith', List.getElem?_map, hll, hiv, hc]

theorem variance_zero_ivar_inf (cq e s0 fu : ℚ) (he : 0 < e) :
    FP.add
      (FP.add
        (FP.mul (FP.fin e)
          (FP.div (FP.div (FP.fin 1) (FP.fin 0))
            (FP.mul (FP.fin cq) (FP.fin cq))))
        (FP.fin s0))
      (FP.div (FP.fin fu)
        (FP.div (FP.div (FP.fin 1) (FP.fin 0))
          (FP.mul (FP.fin cq) (FP.fin cq)))) = FP.inf := by
  have h1 : FP.div (FP.fin 1) (FP.fin 0) = FP.inf := by norm_num
  have hcq : ¬(cq * cq < 0) := not_lt.mpr (mul_self_nonneg cq)
  rw [h1]
  simp [hcq, he]

theorem weight_nonneg_scalar (a cq e s0 fu : ℚ) (ha : 0 ≤ a) (he : 0 < e)
    (hs : 0 ≤ s0) (hf : 0 ≤ fu) :
    FP.le (FP.fin 0)
      (FP.div (FP.fin 1)
        (FP.add
          (FP.add
            (FP.mul (FP.fin e)
              (FP.div (FP.div (FP.fin 1) (FP.fin a))
                (FP.mul (FP.fin cq) (FP.fin cq))))
            (FP.fin s0))
          (FP.div (FP.fin fu)
            (FP.div (FP.div (FP.fin 1) (FP.fin a))
              (FP.mul (FP.fin cq) (FP.fin cq)))))) = true := by
  rcases eq_or_lt_of_le ha with ha0 | hapos
  · rw [← ha0, variance_zero_ivar_inf cq e s0 fu he]
    norm_num
  · have hane : a ≠ 0 := ne_of_gt hapos
    by_cases hcq : cq = 0
    · subst hcq
      have h0 : FP.mul (FP.fin 0) (FP.fin 0) = FP.fin 0 := by norm_num
      have hinv : (0 : ℚ) < 1 / a := one_div_pos.mpr hapos
      have h1 : FP.div (FP.fin 1) (FP.fin a) = FP.fin (1 / a) := by
        simp [hane]
      have h2 : FP.div (FP.fin (1 / a)) (FP.fin 0) = FP.inf := by
        simp [hane, hapos]
      rw [h0, h1, h2]
      simp [he]
    · have hcq2 : 0 < cq * cq := mul_self_pos.mpr hcq
      have hw : 0 < 1 / a / (cq * cq) :=
        div_pos (one_div_pos.mpr hapos) hcq2
      have h1 : FP.div (FP.fin 1) (FP.fin a) = FP.fin (1 / a) := by
        simp [hane]
      have h2 : FP.div (FP.fin (1 / a)) (FP.fin (cq * cq)) =
          FP.fin (1 / a / (cq * cq)) := by
        simp [ne_of_gt hcq2]
      have hv : 0 < e * (1 / a / (cq * cq)) + s0 + fu / (1 / a / (cq * cq)) := by
        have he1 : 0 < e * (1 / a / (cq * cq)) := mul_pos he hw
        have he2 : 0 ≤ fu / (1 / a / (cq * cq)) := div_nonneg hf (le_of_lt hw)
        linarith
      have h3 : FP.div (FP.fin fu) (FP.fin (1 / a / (cq * cq))) =
          FP.fin (fu / (1 / a / (cq * cq))) := by
        rw [FP.div_fin_fin, if_neg (ne_of_gt hw)]
      rw [FP.mul_fin_fin cq cq, h1, h2, FP.mul_fin_fin, FP.add_fin_fin, h3,
        FP.add_fin_fin, FP.div_fin_fin, if_neg (ne_of_gt hv), FP.le_fin_fin,
        decide_eq_true_eq]
      positivity

/-- Claim C9 amended: a pixel with zero pipeline inverse variance has
infinite variance and hence exactly zero stacking weight *provided* its eta
value is positive (in constant-weight mode, where `eta = 0`, the same weight
is NaN - see the counterexample); weights are nonnegative wherever the
variance inputs are finite with positive eta; the stack interpolant domain
keeps only bins with positive stacked weight; and the stack division is
guarded, so a bin without positive weight keeps its raw (zero) entry. -/
theorem c9_zero_ivar_weights (st : Dr16State) (f : Forest) (cont : List FP)
    (fs : List Forest) (b : Bool) :
    (∀ (i : ℕ) (xi cq e s0 fu : ℚ),
      f.log_lambda.get? i = some xi →
      f.ivar.get? i = some 0 →
      cont.get? i = some (FP.fin cq) →
      st.get_eta.eval xi = FP.fin e → 0 < e →
      st.get_var_lss.eval xi = FP.fin s0 →
      st.get_fudge.eval xi = FP.fin fu →
      (compute_forest_variance st f cont).get? i = some FP.inf ∧
      ((compute_forest_variance st f cont).map
        (FP.div (FP.fin 1))).get? i = some (FP.fin 0)) ∧
    (∀ (i : ℕ) (xi a cq e s0 fu : ℚ),
      f.log_lambda.get? i = some xi →
      f.ivar.get? i = some a → 0 ≤ a →
      cont.get? i = some (FP.fin cq) →
      st.get_eta.eval xi = FP.fin e → 0 < e →
      st.get_var_lss.eval xi = FP.fin s0 → 0 ≤ s0 →
      st.get_fudge.eval xi = FP.fin fu → 0 ≤ fu →
      ∀ w, ((compute_forest_variance st f cont).map
        (FP.div (FP.fin 1))).get? i = some w →
      FP.le (FP.fin 0) w = true) ∧
    ((compute_delta_stack st fs b).get_stack_delta =
      some ⟨IKind.nearest, IFill.extrap,
        maskQ st.log_lambda_grid
          ((delta_stack_accum st fs b).2.map fun wt => FP.lt (FP.fin 0) wt),
        maskFP (delta_stack_divided st fs b)
          ((delta_stack_accum st fs b).2.map fun wt =>
            FP.lt (FP.fin 0) wt)⟩ ∧
      ∀ x ∈ maskQ st.log_lambda_grid
          ((delta_stack_accum st fs b).2.map fun wt =>
            FP.lt (FP.fin 0) wt),
        ∃ i, st.log_lambda_grid.get? i = some x ∧
          ∃ w, (delta_stack_accum st fs b).2.get? i = some w ∧
            FP.lt (FP.fin 0) w = true) ∧
    (∀ (i : ℕ) (d wt : FP),
      (delta_stack_accum st fs b).1.get? i = some d →
      (delta_stack_accum st fs b).2.get? i = some wt →
      FP.lt (FP.fin 0) wt = false →
      (delta_stack_divided st fs b).get? i = some d) := by
  refine ⟨?_, ?_, ⟨rfl, ?_⟩, ?_⟩
  · intro i xi cq e s0 fu hll hiv hc heta he hlss hfudge
    have hv := compute_forest_variance_get? st f cont i xi 0 (FP.fin cq)
      hll hiv hc
    rw [heta, hlss, hfudge, variance_zero_ivar_inf cq e s0 fu he] at hv
    refine ⟨hv, ?_⟩
    simp only [List.get?_eq_getElem?] at hv ⊢
    simp [List.getElem?_map, hv]
  · intro i xi a cq e s0 fu hll hiv ha hc heta he hlss hs hfudge hf w hw
    have hv := compute_forest_variance_get? st f cont i xi a (FP.fin cq)
      hll hiv hc
    rw [heta, hlss, hfudge] at hv
    simp only [List.get?_eq_getElem?] at hv hw
    rw [List.getElem?_map, hv] at hw
    simp only [Option.map_some'] at hw
    have hw' := Option.some.inj hw
    rw [← hw']
    exact weight_nonneg_scalar a cq e s0 fu ha he hs hf
  · intro x hx
    rcases mem_maskQ_exists _ _ x hx with ⟨i, hv, hm⟩
    refine ⟨i, hv, ?_⟩
    rw [List.get?_map] at hm
    rcases Option.map_eq_some'.mp hm with ⟨w, hw, hwt⟩
    exact ⟨w, hw, hwt⟩
  · intro i d wt hd hwt hlt
    unfold delta_stack_divided
    simp only [List.get?_eq_getElem?] at hd hwt ⊢
    simp [List.getElem?_zipWith', hd, hwt, hlt]

/-- Witness for the amended C9: in the default-mode configuration (`eta = 1`)
the zero-ivar pixel of the concrete forest has infinite variance and zero
stacking weight. -/
theorem c9_zero_ivar_weights_witness :
    (compute_forest_variance exBase fC9 [FP.fin 1, FP.fin 1]).get? 0 =
      some FP.inf ∧
    ((compute_forest_variance exBase fC9 [FP.fin 1, FP.fin 1]).map
      (FP.div (FP.fin 1))).get? 0 = some (FP.fin 0) := by
  apply (c9_zero_ivar_weights exBase fC9 [FP.fin 1, FP.fin 1] [] false).1
    0 0 1 1 0 0
  · rfl
  · rfl
  · rfl
  · norm_num [Interp.eval, nearestPick, qabs, exBase]
  · norm_num
  · norm_num [Interp.eval, nearestPick, qabs, exBase]
  · norm_num [Interp.eval, nearestPick, qabs, exBase]

theorem var_stats_bin_num_pixels (r : VarBinFit) :
    (var_stats_bin r).num_pixels = FP.fin r.num_pixels := by
  by_cases h : r.valid <;> simp [var_stats_bin, h]

theorem var_stats_wmask_get? (st : Dr16State) (oracle : ℕ → VarBinFit)
    (i : ℕ) :
    (var_stats_wmask st oracle).get? i =
      if i < st.num_bins_variance then
        some (decide (0 < (oracle i).num_pixels))
      else none := by
  unfold var_stats_wmask var_stats_records
  simp only [List.get?_eq_getElem?]
  by_cases h : i < st.num_bins_variance
  · simp [List.getElem?_map, List.getElem?_range, h,
      var_stats_bin_num_pixels]
  · simp [List.getElem?_map, List.getElem?_range, h]
    omega

theorem mem_maskQ_of (v : List ℚ) (m : List Bool) (x : ℚ) (i : ℕ)
    (hv : v.get? i = some x) (hm : m.get? i = some true) :
    x ∈ maskQ v m := by
  unfold maskQ
  apply List.mem_filterMap.mpr
  refine ⟨(x, true), ?_, by simp⟩
  apply List.get?_mem (n := i)
  show (List.zipWith Prod.mk v m).get? i = some (x, true)
  exact (List.get?_zipWith_eq_some _ _ _ _ i).mpr ⟨x, true, hv, hm, rfl⟩

/-- Claim C7: each observed-wavelength bin records the fitted
`(eta, var_lss, fudge)` and a true valid-fit flag on minimizer success, the
fixed fall-backs `(1, 0.1, FUDGE_REF)` and a false flag on failure, the bin's
pixel count and objective value in both cases; and the variance functions are
rebuilt as nearest-neighbor, flat-extrapolated interpolants over exactly the
bins with a positive pixel count. -/
theorem c7_var_stats_per_bin (st : Dr16State) (oracle : ℕ → VarBinFit) :
    (∀ i : ℕ,
      ((oracle i).valid = true →
        var_stats_bin (oracle i) =
          ⟨FP.fin (oracle i).eta, FP.fin (oracle i).var_lss,
            FP.fin ((oracle i).fudge * FUDGE_REF), FP.fin 1,
            FP.fin (oracle i).num_pixels, FP.fin (oracle i).fval⟩) ∧
      ((oracle i).valid = false →
        var_stats_bin (oracle i) =
          ⟨FP.fin 1, FP.fin (1 / 10), FP.fin (1 * FUDGE_REF), FP.fin 0,
            FP.fin (oracle i).num_pixels, FP.fin (oracle i).fval⟩)) ∧
    ((compute_var_stats st oracle).get_eta =
        ⟨IKind.nearest, IFill.extrap,
          maskQ st.log_lambda_var_func_grid (var_stats_wmask st oracle),
          maskFP ((var_stats_records st oracle).map VarBinRecord.eta)
            (var_stats_wmask st oracle)⟩ ∧
      (compute_var_stats st oracle).get_var_lss =
        ⟨IKind.nearest, IFill.extrap,
          maskQ st.log_lambda_var_func_grid (var_stats_wmask st oracle),
          maskFP ((var_stats_records st oracle).map VarBinRecord.var_lss)
            (var_stats_wmask st oracle)⟩ ∧
      (compute_var_stats st oracle).get_fudge =
        ⟨IKind.nearest, IFill.extrap,
          maskQ st.log_lambda_var_func_grid (var_stats_wmask st oracle),
          maskFP ((var_stats_records st oracle).map VarBinRecord.fudge)
            (var_stats_wmask st oracle)⟩ ∧
      (compute_var_stats st oracle).get_num_pixels =
        ⟨IKind.nearest, IFill.extrap,
          maskQ st.log_lambda_var_func_grid (var_stats_wmask st oracle),
          maskFP ((var_stats_records st oracle).map VarBinRecord.num_pixels)
            (var_stats_wmask st oracle)⟩ ∧
      (compute_var_stats st oracle).get_valid_fit =
        ⟨IKind.nearest, IFill.extrap,
          maskQ st.log_lambda_var_func_grid (var_stats_wmask st oracle),
          maskFP ((var_stats_records st oracle).map VarBinRecord.valid_fit)
            (var_stats_wmask st oracle)⟩) ∧
    (∀ g : ℚ, g ∈ (compute_var_stats st oracle).get_eta.xs ↔
      ∃ i, i < st.num_bins_variance ∧
        st.log_lambda_var_func_grid.get? i = some g ∧
        0 < (oracle i).num_pixels) := by
  refine ⟨?_, ⟨rfl, rfl, rfl, rfl, rfl⟩, ?_⟩
  · intro i
    constructor
    · intro h; simp [var_stats_bin, h]
    · intro h; simp [var_stats_bin, h]
  · intro g
    constructor
    · intro hg
      have hg' : g ∈ maskQ st.log_lambda_var_func_grid
          (var_stats_wmask st oracle) := hg
      rcases mem_maskQ_exists _ _ g hg' with ⟨i, hv, hm⟩
      rw [var_stats_wmask_get? st oracle i] at hm
      by_cases h : i < st.num_bins_variance
      · rw [if_pos h] at hm
        have := Option.some.inj hm
        refine ⟨i, h, hv, ?_⟩
        exact of_decide_eq_true this
      · rw [if_neg h] at hm
        exact absurd hm (Option.noConfusion)
    · rintro ⟨i, hi, hv, hpos⟩
      apply mem_maskQ_of _ _ g i hv
      rw [var_stats_wmask_get? st oracle i, if_pos hi]
      simp [hpos]

/-- Witness for C7 at a concrete configuration and per-bin oracle: the
single bin (pixel count 5, converged) is recorded with its fitted values and
its grid point enters the rebuilt interpolant domain. -/
theorem c7_var_stats_per_bin_witness :
    var_stats_bin ((fun _ : ℕ => (⟨true, 1, 1 / 10, 1, 2, 5⟩ : VarBinFit)) 0) =
      ⟨FP.fin 1, FP.fin (1 / 10), FP.fin (1 * FUDGE_REF), FP.fin 1,
        FP.fin 5, FP.fin 2⟩ ∧
    (0 : ℚ) ∈ (compute_var_stats exBase
      (fun _ : ℕ => (⟨true, 1, 1 / 10, 1, 2, 5⟩ : VarBinFit))).get_eta.xs := by
  constructor
  · exact ((c7_var_stats_per_bin exBase
      (fun _ : ℕ => (⟨true, 1, 1 / 10, 1, 2, 5⟩ : VarBinFit))).1 0).1 rfl
  · apply ((c7_var_stats_per_bin exBase
      (fun _ : ℕ => (⟨true, 1, 1 / 10, 1, 2, 5⟩ : VarBinFit))).2.2 0).mpr
    refine ⟨0, ?_, rfl, by norm_num⟩
    norm_num [exBase]

theorem lookup_map_overwrite {α : Type} (k : ℕ) (v : α) :
    ∀ l : List (ℕ × α), (l.any fun p => p.1 == k) = true →
      List.lookup k (l.map fun p => if p.1 == k then (k, v) else p) =
        some v := by
  intro l
  induction l with
  | nil => intro h; simp at h
  | cons p l ih =>
      intro h
      by_cases hp : p.1 = k
      · have hbeq : (p.1 == k) = true := by simp [hp]
        simp only [List.map_cons, hbeq, if_true]
        rw [List.lookup]
        simp
      · have h' : (l.any fun p => p.1 == k) = true := by
          simp only [List.any_cons, Bool.or_eq_true, beq_iff_eq] at h
          rcases h with h | h
          · exact absurd h hp
          · simpa [beq_iff_eq] using h
        have hbeq : (p.1 == k) = false := by
          simp only [beq_eq_false_iff_ne]
          exact hp
        have hkp : (k == p.1) = false := by
          simp only [beq_eq_false_iff_ne]
          exact fun he => hp he.symm
        simp only [List.map_cons, hbeq, Bool.false_eq_true, if_false]
        rw [List.lookup]
        simp only [hkp]
        exact ih h'

theorem lookup_append_not_found {α : Type} (k : ℕ) (v : α) :
    ∀ l : List (ℕ × α), (l.any fun p => p.1 == k) = false →
      List.lookup k (l ++ [(k, v)]) = some v := by
  intro l
  induction l with
  | nil => simp [List.lookup]
  | cons p l ih =>
      intro h
      simp only [List.any_cons, Bool.or_eq_false_iff] at h
      have hkp : (k == p.1) = false := by
        simp only [beq_eq_false_iff_ne]
        have h1 : p.1 ≠ k := by
          have := h.1
          simpa [beq_eq_false_iff_ne] using this
        exact fun he => h1 he.symm
      rw [List.cons_append, List.lookup]
      simp only [hkp]
      exact ih h.2

theorem lookup_insertA_self {α : Type} (l : List (ℕ × α)) (k : ℕ) (v : α) :
    List.lookup k (insertA l k v) = some v := by
  unfold insertA
  by_cases h : (l.any fun p => p.1 == k) = true
  · rw [if_pos h]
    exact lookup_map_overwrite k v l h
  · have h' : (l.any fun p => p.1 == k) = false := Bool.eq_false_iff.mpr h
    rw [h']
    simp only [Bool.false_eq_true, if_false]
    exact lookup_append_not_found k v l h'

theorem lookup_insertA_ne {α : Type} (l : List (ℕ × α)) (k k' : ℕ) (v : α)
    (hne : k' ≠ k) :
    List.lookup k' (insertA l k v) = List.lookup k' l := by
  have hk'k : (k' == k) = false := by
    simp only [beq_eq_false_iff_ne]
    exact hne
  unfold insertA
  by_cases h : (l.any fun p => p.1 == k) = true
  · rw [if_pos h]
    clear h
    induction l with
    | nil => simp
    | cons p l ih =>
        by_cases hp : p.1 = k
        · have hbeq : (p.1 == k) = true := by simp [hp]
          have h2 : (k' == p.1) = false := by
            simp only [beq_eq_false_iff_ne]
            rw [hp]
            exact hne
          simp only [List.map_cons, hbeq, if_true]
          rw [List.lookup, List.lookup]
          simp only [hk'k, h2]
          exact ih
        · have hbeq : (p.1 == k) = false := by
            simp only [beq_eq_false_iff_ne]
            exact hp
          simp only [List.map_cons, hbeq, Bool.false_eq_true, if_false]
          rw [List.lookup, List.lookup]
          cases hkp : (k' == p.1) with
          | true => rfl
          | false => exact ih
  · have h' : (l.any fun p => p.1 == k) = false := Bool.eq_false_iff.mpr h
    rw [h']
    simp only [Bool.false_eq_true, if_false]
    clear h h'
    induction l with
    | nil => simp [List.lookup, hk'k]
    | cons p l ih =>
        rw [List.cons_append, List.lookup, List.lookup]
        cases hkp : (k' == p.1) with
        | true => rfl
        | false => exact ih

theorem populate_eq_fold (st : Dr16State) :
    ∀ (fs : List Forest) (l : List (ℕ × LosInfo)),
      populate_los_ids { st with los_ids := l } fs =
        { st with los_ids := (fs.foldl
            (fun acc g =>
              if g.bad_continuum_reason.isSome then acc
              else insertA acc g.los_id (los_info_of_forest st g)) l) } := by
  intro fs
  induction fs with
  | nil => intro l; rfl
  | cons f fs ih =>
      intro l
      by_cases hb : f.bad_continuum_reason.isSome
      · simp only [populate_los_ids, List.foldl_cons, hb, if_true]
        simpa [populate_los_ids] using ih l
      · simp only [populate_los_ids, List.foldl_cons, hb, Bool.false_eq_true,
          if_false]
        simpa [populate_los_ids] using
          ih (insertA l f.los_id (los_info_of_forest st f))

theorem fold_lookup_skip (st : Dr16State) (k : ℕ) :
    ∀ (fs : List Forest) (l : List (ℕ × LosInfo)),
      (∀ g ∈ fs, g.los_id ≠ k ∨ g.bad_continuum_reason.isSome = true) →
      List.lookup k (fs.foldl
        (fun acc g =>
          if g.bad_continuum_reason.isSome then acc
          else insertA acc g.los_id (los_info_of_forest st g)) l) =
      List.lookup k l := by
  intro fs
  induction fs with
  | nil => intro l _; rfl
  | cons g gs ih =>
      intro l hall
      simp only [List.foldl_cons]
      by_cases hb : g.bad_continuum_reason.isSome
      · rw [if_pos hb]
        exact ih l (fun g' hg' => hall g' (List.mem_cons_of_mem _ hg'))
      · rw [if_neg hb]
        have hne : g.los_id ≠ k := by
          rcases hall g (List.mem_cons_self g gs) with h | h
          · exact h
          · exact absurd h hb
        rw [ih (insertA l g.los_id (los_info_of_forest st g))
          (fun g' hg' => hall g' (List.mem_cons_of_mem _ hg'))]
        exact lookup_insertA_ne l g.los_id k _ (fun he => hne he.symm)

theorem fold_lookup_good (st : Dr16State) :
    ∀ (fs : List Forest) (l : List (ℕ × LosInfo)) (f : Forest),
      f ∈ fs → f.bad_continuum_reason = none →
      (fs.map Forest.los_id).Nodup →
      List.lookup f.los_id (fs.foldl
        (fun acc g =>
          if g.bad_continuum_reason.isSome then acc
          else insertA acc g.los_id (los_info_of_forest st g)) l) =
      some (los_info_of_forest st f) := by
  intro fs
  induction fs with
  | nil => intro l f hf; exact absurd hf (List.not_mem_nil f)
  | cons g gs ih =>
      intro l f hf hbad hnodup
      have hhead : g.los_id ∉ gs.map Forest.los_id :=
        (List.nodup_cons.mp hnodup).1
      have htail : (gs.map Forest.los_id).Nodup :=
        (List.nodup_cons.mp hnodup).2
      simp only [List.foldl_cons]
      rcases List.mem_cons.mp hf with rfl | hmem
      · have hb : f.bad_continuum_reason.isSome = false := by
          simp [hbad]
        rw [hb]
        simp only [Bool.false_eq_true, if_false]
        rw [fold_lookup_skip st f.los_id gs _
          (fun g' hg' => Or.inl (fun he =>
            hhead (he ▸ List.mem_map_of_mem Forest.los_id hg')))]
        exact lookup_insertA_self l f.los_id _
      · by_cases hb : g.bad_continuum_reason.isSome
        · rw [if_pos hb]
          exact ih l f hmem hbad htail
        · rw [if_neg hb]
          exact ih _ f hmem hbad htail

/-- Claim C1: after `populate_los_ids`, every successfully fit forest's
line-of-sight id maps to exactly the entry built from it - the mean expected
flux `continuum * stacked_delta`, the weights `1 / variance(mean expected
flux)`, the continuum, and an adjusted inverse variance exactly for
`Pk1dForest` objects - while every forest whose fit failed is absent from
the mapping. -/
theorem c1_los_ids_population (st : Dr16State) (forests : List Forest)
    (f : Forest) (hnodup : (forests.map Forest.los_id).Nodup)
    (hinit : st.los_ids = []) (hf : f ∈ forests) :
    (f.bad_continuum_reason = none →
      List.lookup f.los_id (populate_los_ids st forests).los_ids =
        some (los_info_of_forest st f)) ∧
    (f.bad_continuum_reason ≠ none →
      List.lookup f.los_id (populate_los_ids st forests).los_ids = none) ∧
    ((los_info_of_forest st f).mean_expected_flux =
      List.zipWith FP.mul (f.continuum.getD [])
        (f.log_lambda.map (evalO st.get_stack_delta)) ∧
    (los_info_of_forest st f).weights =
      (compute_forest_variance st f
        ((los_info_of_forest st f).mean_expected_flux)).map
        (FP.div (FP.fin 1)) ∧
    (los_info_of_forest st f).continuum = f.continuum.getD [] ∧
    (los_info_of_forest st f).ivar.isSome = f.isPk1d ∧
    (f.isPk1d = true →
      (los_info_of_forest st f).ivar =
        some (List.zipWith FP.mul
          (List.zipWith
            (fun iv e => FP.div (FP.fin iv)
              (FP.add e (if e = FP.fin 0 then FP.fin 1 else FP.fin 0)))
            f.ivar (f.log_lambda.map st.get_eta.eval))
          ((los_info_of_forest st f).mean_expected_flux.map
            fun m => FP.mul m m)))) := by
  have hst : ({ st with los_ids := ([] : List (ℕ × LosInfo)) } : Dr16State)
      = st := by
    rw [← hinit]
  have hpop : populate_los_ids st forests =
      { st with los_ids := (forests.foldl
          (fun acc g =>
            if g.bad_continuum_reason.isSome then acc
            else insertA acc g.los_id (los_info_of_forest st g)) []) } := by
    rw [← hst]
    exact populate_eq_fold st forests []
  refine ⟨?_, ?_, rfl, rfl, rfl, ?_, ?_⟩
  · intro hbad
    rw [hpop]
    exact fold_lookup_good st forests [] f hf hbad hnodup
  · intro hbad
    rw [hpop]
    have hall : ∀ g ∈ forests,
        g.los_id ≠ f.los_id ∨ g.bad_continuum_reason.isSome = true := by
      intro g hg
      by_cases hid : g.los_id = f.los_id
      · right
        have : g = f :=
          List.inj_on_of_nodup_map hnodup hg hf hid
        rw [this]
        exact Option.isSome_iff_ne_none.mpr hbad
      · exact Or.inl hid
    rw [fold_lookup_skip st f.los_id forests [] hall]
    rfl
  · cases h : f.isPk1d <;> simp [los_info_of_forest, h]
  · intro h
    simp [los_info_of_forest, h]

/-- Witness for C1 at the concrete run state with a computed delta stack: the
single successfully fit forest's id maps to its built entry. -/
theorem c1_los_ids_population_witness :
    List.lookup 1 (populate_los_ids stC1 [exForest]).los_ids =
      some (los_info_of_forest stC1 exForest) := by
  have h := (c1_los_ids_population stC1 [exForest] exForest (by simp)
    rfl (by simp)).1 rfl
  simpa using h

theorem compute_mean_cont_num_iter (st : Dr16State) (fs : List Forest) :
    (compute_mean_cont st fs).num_iterations = st.num_iterations := rfl

theorem compute_mean_cont_uiw (st : Dr16State) (fs : List Forest) :
    (compute_mean_cont st fs).use_ivar_as_weight = st.use_ivar_as_weight :=
  rfl

theorem compute_mean_cont_ucw (st : Dr16State) (fs : List Forest) :
    (compute_mean_cont st fs).use_constant_weight = st.use_constant_weight :=
  rfl

theorem compute_mean_cont_saved (st : Dr16State) (fs : List Forest) :
    (compute_mean_cont st fs).saved_steps = st.saved_steps := rfl

theorem compute_var_stats_num_iter (st : Dr16State) (o : ℕ → VarBinFit) :
    (compute_var_stats st o).num_iterations = st.num_iterations := rfl

theorem compute_var_stats_uiw (st : Dr16State) (o : ℕ → VarBinFit) :
    (compute_var_stats st o).use_ivar_as_weight = st.use_ivar_as_weight :=
  rfl

theorem compute_var_stats_ucw (st : Dr16State) (o : ℕ → VarBinFit) :
    (compute_var_stats st o).use_constant_weight = st.use_constant_weight :=
  rfl

theorem compute_var_stats_saved (st : Dr16State) (o : ℕ → VarBinFit) :
    (compute_var_stats st o).saved_steps = st.saved_steps := rfl

theorem compute_delta_stack_num_iter (st : Dr16State) (fs : List Forest)
    (b : Bool) :
    (compute_delta_stack st fs b).num_iterations = st.num_iterations := rfl

theorem compute_delta_stack_uiw (st : Dr16State) (fs : List Forest)
    (b : Bool) :
    (compute_delta_stack st fs b).use_ivar_as_weight =
      st.use_ivar_as_weight := rfl

theorem compute_delta_stack_ucw (st : Dr16State) (fs : List Forest)
    (b : Bool) :
    (compute_delta_stack st fs b).use_constant_weight =
      st.use_constant_weight := rfl

theorem compute_delta_stack_saved (st : Dr16State) (fs : List Forest)
    (b : Bool) :
    (compute_delta_stack st fs b).saved_steps = st.saved_steps := rfl

theorem save_iteration_step_num_iter (st : Dr16State) (i : Int) :
    (save_iteration_step st i).num_iterations = st.num_iterations := rfl

theorem save_iteration_step_uiw (st : Dr16State) (i : Int) :
    (save_iteration_step st i).use_ivar_as_weight =
      st.use_ivar_as_weight := rfl

theorem save_iteration_step_ucw (st : Dr16State) (i : Int) :
    (save_iteration_step st i).use_constant_weight =
      st.use_constant_weight := rfl

theorem save_iteration_step_saved (st : Dr16State) (i : Int) :
    (save_iteration_step st i).saved_steps.map SavedStep.label =
      st.saved_steps.map SavedStep.label ++ [i] := by
  simp [save_iteration_step]

theorem run_continuum_fits_fst (oracle : ℕ → MinuitResult) :
    ∀ (fs : List Forest) (p : Dr16State × List Forest),
      ∃ cp, (fs.foldl
        (fun p f =>
          let r := compute_continuum p.1 f (oracle p.2.length)
          (r.1, p.2 ++ [r.2])) p).1 =
        { p.1 with continuum_fit_parameters := cp } := by
  intro fs
  induction fs with
  | nil =>
      intro p
      exact ⟨p.1.continuum_fit_parameters, rfl⟩
  | cons f fs ih =>
      intro p
      simp only [List.foldl_cons]
      rcases ih ((compute_continuum p.1 f (oracle p.2.length)).1,
        p.2 ++ [(compute_continuum p.1 f (oracle p.2.length)).2]) with ⟨cp, h⟩
      refine ⟨cp, ?_⟩
      rw [h]
      rfl

theorem orchestrator_step_eq (co : ℕ → ℕ → MinuitResult)
    (vo : ℕ → ℕ → VarBinFit) (N : ℕ) (uiw ucw : Bool) (k : ℕ)
    (acc : Dr16State × List Forest) (hN : acc.1.num_iterations = N)
    (hu : acc.1.use_ivar_as_weight = uiw)
    (hc : acc.1.use_constant_weight = ucw) :
    (let fitres := run_continuum_fits acc.1 acc.2 (co k)
     let st := fitres.1
     let forests := fitres.2
     let st :=
       if k < st.num_iterations - 1 then
         let st1 := compute_mean_cont st forests
         if ¬(st1.use_ivar_as_weight ∨ st1.use_constant_weight) then
           compute_var_stats st1 (vo k)
         else st1
       else st
     let st := compute_delta_stack st forests false
     let st :=
       if k = st.num_iterations - 1 then save_iteration_step st (-1)
       else save_iteration_step st k
     (st, forests)) =
    spec_iteration_step (co k) (vo k) k N uiw ucw acc := by
  rcases run_continuum_fits_fst (co k) acc.2 (acc.1, []) with ⟨cp, hfit⟩
  have h1 : (run_continuum_fits acc.1 acc.2 (co k)).1.num_iterations = N := by
    rw [show (run_continuum_fits acc.1 acc.2 (co k)).1 =
      { acc.1 with continuum_fit_parameters := cp } from hfit]
    exact hN
  have h2 : (run_continuum_fits acc.1 acc.2 (co k)).1.use_ivar_as_weight =
      uiw := by
    rw [show (run_continuum_fits acc.1 acc.2 (co k)).1 =
      { acc.1 with continuum_fit_parameters := cp } from hfit]
    exact hu
  have h3 : (run_continuum_fits acc.1 acc.2 (co k)).1.use_constant_weight =
      ucw := by
    rw [show (run_continuum_fits acc.1 acc.2 (co k)).1 =
      { acc.1 with continuum_fit_parameters := cp } from hfit]
    exact hc
  simp only [spec_iteration_step]
  simp only [compute_mean_cont_uiw, compute_mean_cont_ucw,
    compute_mean_cont_num_iter, compute_var_stats_num_iter,
    compute_delta_stack_num_iter, h1, h2, h3]
  by_cases hk : k < N - 1
  · simp only [hk, if_true]
    by_cases hw : uiw = true ∨ ucw = true
    · simp only [hw, not_true, if_false]
      simp only [compute_mean_cont_num_iter, compute_var_stats_num_iter,
        compute_delta_stack_num_iter, h1, h2, h3, apply_ite]
    · simp only [hw, not_false_iff, if_true]
      simp only [compute_mean_cont_num_iter, compute_var_stats_num_iter,
        compute_delta_stack_num_iter, h1, h2, h3, apply_ite]
  · simp only [hk, if_false]
    simp only [compute_mean_cont_num_iter, compute_var_stats_num_iter,
      compute_delta_stack_num_iter, h1, h2, h3, apply_ite]

theorem spec_iteration_step_num_iter (co : ℕ → MinuitResult)
    (vo : ℕ → VarBinFit) (k n : ℕ) (uiw ucw : Bool)
    (acc : Dr16State × List Forest) :
    (spec_iteration_step co vo k n uiw ucw acc).1.num_iterations =
      acc.1.num_iterations := by
  rcases run_continuum_fits_fst co acc.2 (acc.1, []) with ⟨cp, hfit⟩
  simp only [spec_iteration_step, save_iteration_step_num_iter,
    compute_delta_stack_num_iter, apply_ite, compute_var_stats_num_iter,
    compute_mean_cont_num_iter, ite_self]
  rw [show (run_continuum_fits acc.1 acc.2 co).1 =
    { acc.1 with continuum_fit_parameters := cp } from hfit]

theorem spec_iteration_step_uiw (co : ℕ → MinuitResult)
    (vo : ℕ → VarBinFit) (k n : ℕ) (uiw ucw : Bool)
    (acc : Dr16State × List Forest) :
    (spec_iteration_step co vo k n uiw ucw acc).1.use_ivar_as_weight =
      acc.1.use_ivar_as_weight := by
  rcases run_continuum_fits_fst co acc.2 (acc.1, []) with ⟨cp, hfit⟩
  simp only [spec_iteration_step, save_iteration_step_uiw,
    compute_delta_stack_uiw, apply_ite, compute_var_stats_uiw,
    compute_mean_cont_uiw, ite_self]
  rw [show (run_continuum_fits acc.1 acc.2 co).1 =
    { acc.1 with continuum_fit_parameters := cp } from hfit]

theorem spec_iteration_step_ucw (co : ℕ → MinuitResult)
    (vo : ℕ → VarBinFit) (k n : ℕ) (uiw ucw : Bool)
    (acc : Dr16State × List Forest) :
    (spec_iteration_step co vo k n uiw ucw acc).1.use_constant_weight =
      acc.1.use_constant_weight := by
  rcases run_continuum_fits_fst co acc.2 (acc.1, []) with ⟨cp, hfit⟩
  simp only [spec_iteration_step, save_iteration_step_ucw,
    compute_delta_stack_ucw, apply_ite, compute_var_stats_ucw,
    compute_mean_cont_ucw, ite_self]
  rw [show (run_continuum_fits acc.1 acc.2 co).1 =
    { acc.1 with continuum_fit_parameters := cp } from hfit]

theorem spec_iteration_step_labels (co : ℕ → MinuitResult)
    (vo : ℕ → VarBinFit) (k n : ℕ) (uiw ucw : Bool)
    (acc : Dr16State × List Forest) :
    ((spec_iteration_step co vo k n uiw ucw acc).1.saved_steps).map
        SavedStep.label =
      (acc.1.saved_steps.map SavedStep.label) ++
        [if k = n - 1 then (-1 : Int) else (k : Int)] := by
  rcases run_continuum_fits_fst co acc.2 (acc.1, []) with ⟨cp, hfit⟩
  simp only [spec_iteration_step]
  rw [save_iteration_step_saved]
  congr 1
  simp only [compute_delta_stack_saved, apply_ite
    (fun s : Dr16State => s.saved_steps), compute_var_stats_saved,
    compute_mean_cont_saved, ite_self]
  rw [show (run_continuum_fits acc.1 acc.2 co).1 =
    { acc.1 with continuum_fit_parameters := cp } from hfit]

theorem populate_los_ids_saved (st : Dr16State) (fs : List Forest) :
    (populate_los_ids st fs).saved_steps = st.saved_steps := by
  have h := populate_eq_fold st fs st.los_ids
  rw [show populate_los_ids st fs = _ from h]

theorem orchestrator_fold_eq (co : ℕ → ℕ → MinuitResult)
    (vo : ℕ → ℕ → VarBinFit) (N : ℕ) (uiw ucw : Bool) :
    ∀ (ks : List ℕ) (acc : Dr16State × List Forest),
      acc.1.num_iterations = N → acc.1.use_ivar_as_weight = uiw →
      acc.1.use_constant_weight = ucw →
      ks.foldl
        (fun acc iteration =>
          let fitres := run_continuum_fits acc.1 acc.2 (co iteration)
          let st := fitres.1
          let forests := fitres.2
          let st :=
            if iteration < st.num_iterations - 1 then
              let st1 := compute_mean_cont st forests
              if ¬(st1.use_ivar_as_weight ∨ st1.use_constant_weight) then
                compute_var_stats st1 (vo iteration)
              else st1
            else st
          let st := compute_delta_stack st forests false
          let st :=
            if iteration = st.num_iterations - 1 then
              save_iteration_step st (-1)
            else save_iteration_step st iteration
          (st, forests)) acc =
      ks.foldl
        (fun acc k => spec_iteration_step (co k) (vo k) k N uiw ucw acc)
        acc := by
  intro ks
  induction ks with
  | nil => intro acc _ _ _; rfl
  | cons k ks ih =>
      intro acc hN hu hc
      simp only [List.foldl_cons]
      rw [orchestrator_step_eq co vo N uiw ucw k acc hN hu hc]
      exact ih (spec_iteration_step (co k) (vo k) k N uiw ucw acc)
        (by rw [spec_iteration_step_num_iter]; exact hN)
        (by rw [spec_iteration_step_uiw]; exact hu)
        (by rw [spec_iteration_step_ucw]; exact hc)

theorem orchestrator_fold_labels (co : ℕ → ℕ → MinuitResult)
    (vo : ℕ → ℕ → VarBinFit) (N : ℕ) (uiw ucw : Bool) :
    ∀ (ks : List ℕ) (acc : Dr16State × List Forest),
      (((ks.foldl
          (fun acc k => spec_iteration_step (co k) (vo k) k N uiw ucw acc)
          acc).1.saved_steps).map SavedStep.label) =
        (acc.1.saved_steps.map SavedStep.label) ++
          ks.map (fun k => if k = N - 1 then (-1 : Int) else (k : Int)) := by
  intro ks
  induction ks with
  | nil => intro acc; simp
  | cons k ks ih =>
      intro acc
      simp only [List.foldl_cons, List.map_cons]
      rw [ih (spec_iteration_step (co k) (vo k) k N uiw ucw acc),
        spec_iteration_step_labels]
      simp

/-- Claim C3: `compute_expected_flux` runs exactly `num_iterations` rounds,
each fitting every forest first, updating the mean continuum only when
`k < N - 1` and the variance functions additionally only when neither
fixed-weight mode is active, then stacking the deltas and persisting one
snapshot per round (the final one labelled `-1`, the others by their
iteration index), and populates the per-object outputs exactly once, after
the final round - i.e. it equals the spec-shaped orchestrator, and the saved
snapshot labels are `0, ..., N-2, -1`. -/
theorem c3_orchestrator_structure (co : ℕ → ℕ → MinuitResult)
    (vo : ℕ → ℕ → VarBinFit) (st0 : Dr16State) (fs0 : List Forest) :
    compute_expected_flux co vo st0 fs0 = spec_orchestrator co vo st0 fs0 ∧
    (compute_expected_flux co vo st0 fs0).1.saved_steps.map SavedStep.label =
      st0.saved_steps.map SavedStep.label ++
        (List.range st0.num_iterations).map
          (fun k => if k = st0.num_iterations - 1 then (-1 : Int)
            else (k : Int)) := by
  have hfold := orchestrator_fold_eq co vo st0.num_iterations
    st0.use_ivar_as_weight st0.use_constant_weight
    (List.range st0.num_iterations) (st0, fs0) rfl rfl rfl
  have heq : compute_expected_flux co vo st0 fs0 =
      spec_orchestrator co vo st0 fs0 := by
    simp only [compute_expected_flux, spec_orchestrator]
    rw [hfold]
  refine ⟨heq, ?_⟩
  rw [heq]
  simp only [spec_orchestrator]
  rw [populate_los_ids_saved]
  exact orchestrator_fold_labels co vo st0.num_iterations
    st0.use_ivar_as_weight st0.use_constant_weight
    (List.range st0.num_iterations) (st0, fs0)
